import Mathlib

/-!
Shallow embedding of the agent-checklist repository (Python) in Lean 4,
covering the data model (src/agent_checklist/memory/models.py,
src/agent_checklist/domain.py, src/agent_checklist/skills/models.py),
the state-manager transitions and skill handlers
(src/agent_checklist/memory/state_manager.py) and the coordinator
(src/agent_checklist/engine/coordinator.py).

Modelling conventions:
  * Python strings are embedded as `List Char` (abbreviated `Str`);
    string literals are written with `.data`.
  * `datetime.utcnow()` is modelled by an explicit `now : Nat` parameter
    threaded into every transition; datetime fields hold `Nat`.
  * Nondeterministic `uuid4().hex` entry ids are omitted from the embedded
    records (no claim depends on them).
  * `deepcopy` is the identity in a pure embedding.
  * Python dicts keyed by id, whose values alias the objects stored in the
    checklist lists, are modelled by lookups/updates on the lists
    themselves: a dict comprehension keeps the LAST object with a given
    key, so lookup and in-place mutation through the dict are embedded as
    lookup/update of the last list element with the given id.
  * Ordered Python dicts used as accumulators (`transition_map`) are
    embedded as association lists with insert-or-overwrite-in-place
    semantics (`dictInsert`).
-/

abbrev Str := List Char

/-- domain.WorkflowPhase (src/agent_checklist/domain.py). -/
inductive WorkflowPhase where
  | idle
  | receiving_description
  | generating_checklist
  | presenting_initial_checklist
  | asking_refinement_questions
  | awaiting_user_response
  | processing_feedback
  | updating_checklist
  | presenting_revised_checklist
  | check_approval
  | saving_checklist
  | confirming_save
  | listening_for_progress
  | receiving_user_input
  | interpreting_intent
  | asking_clarification
  | logging_context
  | persisting_update
  | acknowledging_progress
  | checking_completion
  | generating_summary
  | presenting_summary
  | session_complete
deriving DecidableEq, Repr

/-- domain.ChecklistItemStatus. -/
inductive ChecklistItemStatus where
  | pending
  | in_progress
  | complete
deriving DecidableEq, Repr

/-- domain.ConversationEntryKind. -/
inductive ConversationEntryKind where
  | system
  | user
  | agent
  | progress
deriving DecidableEq, Repr

/-- domain.SkillName. -/
inductive SkillName where
  | generate_initial_checklist
  | generate_refinement_questions
  | incorporate_refinements
  | interpret_progress_update
  | generate_completion_summary
deriving DecidableEq, Repr

/-- domain.DecisionType. -/
inductive DecisionType where
  | llm_skill
  | tool
  | complete
  | noop
deriving DecidableEq, Repr

/-- domain.MAX_REFINEMENT_QUESTIONS. -/
def MAX_REFINEMENT_QUESTIONS : Nat := 3

/-- memory.models.ChecklistSubItem. -/
structure ChecklistSubItem where
  sub_item_id : Str
  summary : Str
  detail : Option Str := none
  status : ChecklistItemStatus := .pending
  success_criteria : Option Str := none
  notes : List Str := []
deriving DecidableEq, Repr

/-- memory.models.ChecklistItem. -/
structure ChecklistItem where
  item_id : Str
  summary : Str
  detail : Option Str := none
  status : ChecklistItemStatus := .pending
  success_criteria : Option Str := none
  notes : List Str := []
  sub_items : List ChecklistSubItem := []
deriving DecidableEq, Repr

/-- memory.models.RefinementPrompt. -/
structure RefinementPrompt where
  question : Str
  intent : Str
deriving DecidableEq, Repr

/-- memory.models.RefinementExchange (collected_at defaults to utcnow,
modelled by the `now` parameter at the creation site). -/
structure RefinementExchange where
  question : Str
  answer : Str
  intent : Str
  collected_at : Nat := 0
deriving DecidableEq, Repr

/-- The `metadata` dict attached to a conversation entry. The code stores
either nothing, a skill tag, or an artifact summary dump
(`record_save_result`); the artifact payload of the dump is not itself
modelled (no claim depends on it). -/
inductive EntryMeta where
  | empty
  | ofSkill (s : SkillName)
  | artifactSummary
deriving DecidableEq, Repr

/-- memory.models.ConversationEntry (the nondeterministic uuid `entry_id`
is omitted; `created_at` is the `now` at creation). -/
structure ConversationEntry where
  kind : ConversationEntryKind
  content : Str
  created_at : Nat := 0
  metadata : EntryMeta := .empty
deriving DecidableEq, Repr

/-- memory.models.ProgressLogEntry (uuid `entry_id` omitted; the
`status_transitions` dicts are ordered association lists). -/
structure ProgressLogEntry where
  user_text : Str
  referenced_item_ids : List Str := []
  status_transitions : List (Str × ChecklistItemStatus) := []
  sub_status_transitions : List (Str × ChecklistItemStatus) := []
  contextual_notes : Option Str := none
  recorded_at : Nat := 0
deriving DecidableEq, Repr

/-- memory.models.CoreMemory. -/
structure CoreMemory where
  persona_name : Str := "AI Checklist Agent".data
  mission : Str := ("Transform user goals into measurable checklists, guide execution through " ++ "dialogue, and summarize outcomes with documented context.").data
  version : Str := "1.0.0".data
deriving DecidableEq, Repr

/-- memory.models.SemanticMemory (`saved_preferences : dict[str, Any]` is
modelled with string values; no claim inspects it). -/
structure SemanticMemory where
  user_handle : Option Str := none
  preferred_tone : Str := "collaborative".data
  timezone : Option Str := none
  saved_preferences : List (Str × Str) := []
deriving DecidableEq, Repr

/-- memory.models.WorkflowState. -/
structure WorkflowState where
  phase : WorkflowPhase := .idle
  questions_asked : Nat := 0
  max_refinement_questions : Nat := 3
  checklist_finalized : Bool := false
  pending_save : Bool := false
  listening_started_at : Option Nat := none
  last_transition_at : Nat := 0
  awaiting_clarification : Bool := false
deriving DecidableEq, Repr

/-- memory.models.WorkingMemory. -/
structure WorkingMemory where
  original_description : Option Str := none
  checklist_items : List ChecklistItem := []
  refinement_questions : List RefinementPrompt := []
  refinement_exchanges : List RefinementExchange := []
  latest_user_message : Option Str := none
  conversation_log : List ConversationEntry := []
  progress_log : List ProgressLogEntry := []
  checklist_file_path : Option Str := none
  completion_summary : Option Str := none
  clarification_prompt : Option Str := none
deriving DecidableEq, Repr

/-- memory.models.ResearchState. -/
structure ResearchState where
  core : CoreMemory := {}
  semantic : SemanticMemory := {}
  workflow : WorkflowState := {}
  working : WorkingMemory := {}
deriving DecidableEq, Repr

/-- memory.models.ChecklistArtifactItem. -/
structure ChecklistArtifactItem where
  summary : Str
  detail : Option Str := none
  status : ChecklistItemStatus
  notes : List Str := []
  sub_items : List ChecklistSubItem := []
deriving DecidableEq, Repr

/-- memory.models.ChecklistArtifact. -/
structure ChecklistArtifact where
  task_description : Str
  created_at : Nat
  items : List ChecklistArtifactItem
  refinement_context : List RefinementExchange
  progress_log : List ProgressLogEntry
  completion_notes : Option Str := none
  conversation_excerpt : List ConversationEntry := []
deriving DecidableEq, Repr

/-- skills.models.ChecklistSubBullet. -/
structure ChecklistSubBullet where
  summary : Str
  detail : Option Str := none
  success_criteria : Option Str := none
deriving DecidableEq, Repr

/-- skills.models.ChecklistBullet. -/
structure ChecklistBullet where
  summary : Str
  detail : Option Str := none
  success_criteria : Option Str := none
  sub_items : List ChecklistSubBullet := []
deriving DecidableEq, Repr

/-- skills.models.GenerateInitialChecklistOutput. -/
structure GenerateInitialChecklistOutput where
  ai_response : Str
  items : List ChecklistBullet := []
  risks : List Str := []
deriving DecidableEq, Repr

/-- skills.models.RefinementQuestionModel. -/
structure RefinementQuestionModel where
  question : Str
  intent : Str
  missing_detail : Option Str := none
deriving DecidableEq, Repr

/-- skills.models.GenerateRefinementQuestionsOutput. -/
structure GenerateRefinementQuestionsOutput where
  ai_response : Str
  questions : List RefinementQuestionModel := []
deriving DecidableEq, Repr

/-- The Literal action strings of the refinement update models. -/
inductive RefinementAction where
  | add
  | update
  | remove
deriving DecidableEq, Repr

/-- skills.models.RefinementSubItemUpdateModel. -/
structure RefinementSubItemUpdateModel where
  sub_item_id : Option Str := none
  action : RefinementAction
  summary : Option Str := none
  detail : Option Str := none
  success_criteria : Option Str := none
deriving DecidableEq, Repr

/-- skills.models.RefinementUpdateModel. -/
structure RefinementUpdateModel where
  item_id : Option Str := none
  action : RefinementAction
  summary : Option Str := none
  detail : Option Str := none
  success_criteria : Option Str := none
  sub_items : List ChecklistSubBullet := []
  sub_item_updates : List RefinementSubItemUpdateModel := []
deriving DecidableEq, Repr

/-- skills.models.IncorporateRefinementsOutput. -/
structure IncorporateRefinementsOutput where
  ai_response : Str
  updates : List RefinementUpdateModel := []
  notes : List Str := []
deriving DecidableEq, Repr

/-- skills.models.ProgressSignalModel. -/
structure ProgressSignalModel where
  item_ids : List Str := []
  sub_item_ids : List Str := []
  new_status : Option ChecklistItemStatus := none
  note : Option Str := none
  context : Option Str := none
deriving DecidableEq, Repr

/-- skills.models.InterpretProgressUpdateOutput. -/
structure InterpretProgressUpdateOutput where
  ai_response : Str
  signals : List ProgressSignalModel := []
  needs_clarification : Bool := false
  clarification_prompt : Option Str := none
deriving DecidableEq, Repr

/-- skills.models.CompletionSummaryOutput. -/
structure CompletionSummaryOutput where
  ai_response : Str
  accomplishments : List Str := []
  highlights : List Str := []
  timeline : List Str := []
deriving DecidableEq, Repr

/-- domain.Decision (a frozen dataclass; the coordinator only ever builds
decisions with empty metadata). -/
structure Decision where
  decision_type : DecisionType
  skill : Option SkillName := none
  reason : Str := []
  metadata : List (Str × Str) := []
deriving DecidableEq, Repr

/-- domain.Decision.llm. -/
def Decision.llm (skill : SkillName) (reason : Str) : Decision :=
  { decision_type := .llm_skill, skill := some skill, reason := reason, metadata := [] }

/-- domain.Decision.noop. -/
def Decision.noop (reason : Str) : Decision :=
  { decision_type := .noop, reason := reason }

/-- Python whitespace for `str.strip()` (ASCII whitespace; the unicode
space classes stripped by Python play no role in this development). -/
def isPySpace (c : Char) : Bool :=
  c = ' ' || c = '\t' || c = '\n' || c = '\x0d' || c = '\x0b' || c = '\x0c'

/-- Python `str.strip()`. -/
def pyStrip (s : Str) : Str :=
  ((s.dropWhile isPySpace).reverse.dropWhile isPySpace).reverse

/-- Python truthiness of an optional string (`None` and `""` are falsy). -/
def strTruthy : Option Str → Bool
  | none => false
  | some s => !s.isEmpty

/-- Python `new or old` for optional strings assigned to a non-optional
field (`sub.summary = change.summary or sub.summary`). -/
def overrideStr (new : Option Str) (old : Str) : Str :=
  match new with
  | some s => if s.isEmpty then old else s
  | none => old

/-- Python `new or old` for optional strings assigned to an optional field
(`sub.detail = change.detail or sub.detail`). -/
def overrideOpt (new old : Option Str) : Option Str :=
  if strTruthy new then new else old

/-- Decimal rendering of a natural number with explicit recursion fuel
(any fuel above the value itself is sufficient). -/
def natCharsFuel : Nat → Nat → List Char
  | 0, _ => []
  | fuel + 1, n =>
    if n < 10 then [Nat.digitChar n]
    else natCharsFuel fuel (n / 10) ++ [Nat.digitChar (n % 10)]

/-- Decimal rendering of a natural number, embedding Python
`str(int)` / f-string interpolation of a non-negative integer. -/
def natChars (n : Nat) : List Char := natCharsFuel (n + 1) n

/-- Value of a digit character. -/
def digitVal (c : Char) : Nat := c.toNat - '0'.toNat

/-- Parse a nonempty all-digit string as a natural number; `none`
otherwise. -/
def parseDigits (s : Str) : Option Nat :=
  if s.isEmpty then none
  else if s.all Char.isDigit then some (s.foldl (fun acc c => acc * 10 + digitVal c) 0)
  else none

/-- Embedding of Python `int(s)` on strings: an optional sign followed by
digits. (Python additionally tolerates surrounding whitespace and interior
underscores; that extra permissiveness is irrelevant here — it could only
let more strings contribute to the max-index scans below.) -/
def pyInt? (s : Str) : Option Int :=
  match s with
  | [] => none
  | c :: rest =>
    if c = '-' then (parseDigits rest).map (fun n => -(n : Int))
    else if c = '+' then (parseDigits rest).map (fun n => (n : Int))
    else (parseDigits (c :: rest)).map (fun n => (n : Int))

/-- The literal id stem `"item-"`. -/
def itemDash : Str := "item-".data

/-- Python `s.split("-")[-1]`: the suffix after the last dash (the whole
string if it has no dash). -/
def lastComp (s : Str) : Str :=
  (s.reverse.takeWhile (fun c => !(c = '-'))).reverse

/-- The fold inside state_manager._next_item_id: the maximum over existing
ids of the integer after the `item-` stem (Python
`int(item_id.split("-", 1)[1])`, which for ids starting with `item-` is
the suffix after the first five characters), starting from 0. -/
def nextItemIndex (ids : List Str) : Int :=
  ids.foldl
    (fun m id =>
      if itemDash.isPrefixOf id then
        match pyInt? (id.drop 5) with
        | some v => max m v
        | none => m
      else m)
    0

/-- state_manager._next_item_id. -/
def _next_item_id (ids : List Str) : Str :=
  itemDash ++ natChars (nextItemIndex ids + 1).toNat

/-- The fold inside state_manager._next_sub_item_id. -/
def nextSubIndex (parent_id : Str) (ids : List Str) : Int :=
  ids.foldl
    (fun m sub_id =>
      if (parent_id ++ ['-']).isPrefixOf sub_id then
        match pyInt? (lastComp sub_id) with
        | some v => max m v
        | none => m
      else m)
    0

/-- state_manager._next_sub_item_id (the `existing_ids` set is passed as
the list of current sub-item ids; max over a set equals max over the
list). -/
def _next_sub_item_id (parent_id : Str) (ids : List Str) : Str :=
  parent_id ++ ['-'] ++ natChars (nextSubIndex parent_id ids + 1).toNat

/-- state_manager._build_sub_items_from_bullets, with the enumeration
index made explicit (the handler calls it with `i = 0`). -/
def _build_sub_items_from_bullets (parent_id : Str) : Nat → List ChecklistSubBullet → List ChecklistSubItem
  | _, [] => []
  | i, sb :: rest =>
    { sub_item_id := parent_id ++ ['-'] ++ natChars (i + 1)
      summary := sb.summary
      detail := sb.detail
      success_criteria := sb.success_criteria } :: _build_sub_items_from_bullets parent_id (i + 1) rest

/-- Update the first element satisfying `p` (identity when none does). -/
def updateFirst (p : α → Bool) (f : α → α) : List α → List α
  | [] => []
  | x :: xs => if p x then f x :: xs else x :: updateFirst p f xs

/-- Update the last element satisfying `p`. A Python dict comprehension
keyed by id keeps the last object with a given id, and mutation through
that reference mutates the last matching list element. -/
def updateLast (p : α → Bool) (f : α → α) (l : List α) : List α :=
  (updateFirst p f l.reverse).reverse

/-- Lookup of the last element satisfying `p` (dict-comprehension
semantics: later entries overwrite earlier ones). -/
def lookupLast (p : α → Bool) (l : List α) : Option α :=
  l.reverse.find? p

/-- Python dict insertion on an ordered association list: overwrite in
place when the key is present, append otherwise. -/
def dictInsert (m : List (Str × β)) (k : Str) (v : β) : List (Str × β) :=
  if m.any (fun p => p.1 = k) then
    m.map (fun p => if p.1 = k then (p.1, v) else p)
  else m ++ [(k, v)]

/-- Python `l[-n:]`. -/
def pyLastSlice (n : Nat) (l : List α) : List α :=
  l.drop (l.length - n)

/-- state_manager.create_initial_state. -/
def create_initial_state (user_handle : Option Str) : ResearchState :=
  let state : ResearchState := {}
  { state with
    semantic := { state.semantic with user_handle := user_handle }
    workflow := { state.workflow with max_refinement_questions := MAX_REFINEMENT_QUESTIONS } }

/-- state_manager.ingest_user_description. -/
def ingest_user_description (now : Nat) (state : ResearchState) (description : Str) : ResearchState :=
  let sanitized := pyStrip description
  if sanitized.isEmpty then state
  else
    { state with
      working := { state.working with
        original_description := some sanitized
        conversation_log := state.working.conversation_log ++
          [{ kind := .user, content := sanitized, created_at := now }] }
      workflow := { state.workflow with
        phase := .generating_checklist
        last_transition_at := now } }

/-- state_manager.record_user_feedback. -/
def record_user_feedback (now : Nat) (state : ResearchState) (feedback : Str) : ResearchState :=
  let sanitized := pyStrip feedback
  if sanitized.isEmpty then state
  else
    { state with
      working := { state.working with
        latest_user_message := some sanitized
        conversation_log := state.working.conversation_log ++
          [{ kind := .user, content := sanitized, created_at := now }] }
      workflow := { state.workflow with
        phase := .processing_feedback
        last_transition_at := now } }

/-- state_manager.ingest_progress_input. -/
def ingest_progress_input (now : Nat) (state : ResearchState) (user_message : Str) : ResearchState :=
  let sanitized := pyStrip user_message
  if sanitized.isEmpty then state
  else
    { state with
      working := { state.working with
        latest_user_message := some sanitized
        conversation_log := state.working.conversation_log ++
          [{ kind := .user, content := sanitized, created_at := now }] }
      workflow := { state.workflow with
        phase := .interpreting_intent
        last_transition_at := now } }

/-- state_manager.mark_checklist_approved. -/
def mark_checklist_approved (now : Nat) (state : ResearchState) : ResearchState :=
  { state with
    workflow := { state.workflow with
      checklist_finalized := true
      phase := .saving_checklist
      pending_save := true
      last_transition_at := now } }

/-- state_manager.mark_checklist_rejected. -/
def mark_checklist_rejected (now : Nat) (state : ResearchState) (reason : Str) : ResearchState :=
  let sanitized := pyStrip reason
  let working :=
    if sanitized.isEmpty then state.working
    else { state.working with
      conversation_log := state.working.conversation_log ++
        [{ kind := .user, content := sanitized, created_at := now }] }
  { state with
    working := working
    workflow := { state.workflow with
      phase := .processing_feedback
      last_transition_at := now } }

/-- state_manager.record_save_result (the artifact dump placed in the
entry metadata is modelled by the `artifactSummary` marker). -/
def record_save_result (now : Nat) (state : ResearchState) (_artifact : ChecklistArtifact) (file_path : Str) : ResearchState :=
  { state with
    working := { state.working with
      checklist_file_path := some file_path
      conversation_log := state.working.conversation_log ++
        [{ kind := .system
           content := "Checklist saved to ".data ++ file_path
           created_at := now
           metadata := .artifactSummary }] }
    workflow := { state.workflow with
      pending_save := false
      phase := .confirming_save
      last_transition_at := now } }

/-- state_manager.activate_tracking_mode. -/
def activate_tracking_mode (now : Nat) (state : ResearchState) : ResearchState :=
  { state with
    workflow := { state.workflow with
      phase := .listening_for_progress
      listening_started_at := some (state.workflow.listening_started_at.getD now)
      last_transition_at := now } }

/-- state_manager.acknowledge_progress_ack. -/
def acknowledge_progress_ack (now : Nat) (state : ResearchState) : ResearchState :=
  { state with
    workflow := { state.workflow with
      phase := .listening_for_progress
      awaiting_clarification := false
      last_transition_at := now }
    working := { state.working with
      clarification_prompt := none
      latest_user_message := none } }

/-- state_manager.acknowledge_summary_delivery. -/
def acknowledge_summary_delivery (now : Nat) (state : ResearchState) : ResearchState :=
  { state with
    workflow := { state.workflow with
      phase := .session_complete
      last_transition_at := now } }

/-- state_manager.checklist_is_complete. -/
def checklist_is_complete (state : ResearchState) : Bool :=
  if state.working.checklist_items.isEmpty then false
  else
    state.working.checklist_items.all fun item =>
      item.status == ChecklistItemStatus.complete &&
        item.sub_items.all fun sub => sub.status == ChecklistItemStatus.complete

/-- state_manager.build_artifact. The Python function raises `ValueError`
when no original description is set; the embedding returns `Except` with
the error message. It reads the state without returning a modified one. -/
def build_artifact (now : Nat) (state : ResearchState) : Except Str ChecklistArtifact :=
  match state.working.original_description with
  | none => .error "Cannot persist checklist without an original description".data
  | some desc =>
    .ok
      { task_description := desc
        created_at := now
        items := state.working.checklist_items.map fun item =>
          { summary := item.summary
            detail := item.detail
            status := item.status
            notes := item.notes
            sub_items := item.sub_items.map fun sub =>
              { sub_item_id := sub.sub_item_id
                summary := sub.summary
                detail := sub.detail
                status := sub.status
                success_criteria := sub.success_criteria
                notes := sub.notes } }
        refinement_context := state.working.refinement_exchanges
        progress_log := state.working.progress_log
        completion_notes := state.working.completion_summary
        conversation_excerpt := pyLastSlice 10 state.working.conversation_log }

/-- state_manager._apply_sub_item_updates, one `change` step. The
`sub_map` dict is modelled by last-match lookups on the current sub-item
list (see the module comment); `set(sub_map)` is the list of its keys. -/
def applySubItemChange (parent_item_id : Str) (subs : List ChecklistSubItem)
    (change : RefinementSubItemUpdateModel) : List ChecklistSubItem :=
  match change.action with
  | .add =>
    if !strTruthy change.summary then subs
    else
      let new_id :=
        match change.sub_item_id with
        | some s => if s.isEmpty then _next_sub_item_id parent_item_id (subs.map (·.sub_item_id)) else s
        | none => _next_sub_item_id parent_item_id (subs.map (·.sub_item_id))
      subs ++ [{ sub_item_id := new_id
                 summary := change.summary.getD []
                 detail := change.detail
                 success_criteria := change.success_criteria }]
  | .remove =>
    match change.sub_item_id with
    | some s =>
      if subs.any (fun sub => sub.sub_item_id = s) then
        subs.filter (fun sub => !(sub.sub_item_id = s))
      else subs
    | none => subs
  | .update =>
    match change.sub_item_id with
    | some s =>
      if subs.any (fun sub => sub.sub_item_id = s) then
        updateLast (fun sub => sub.sub_item_id = s)
          (fun sub =>
            { sub with
              summary := overrideStr change.summary sub.summary
              detail := overrideOpt change.detail sub.detail
              success_criteria := overrideOpt change.success_criteria sub.success_criteria })
          subs
      else subs
    | none => subs

/-- state_manager._apply_sub_item_updates (the early return on an empty
update list coincides with an empty fold). -/
def _apply_sub_item_updates (item : ChecklistItem)
    (updates : List RefinementSubItemUpdateModel) : ChecklistItem :=
  { item with sub_items := updates.foldl (applySubItemChange item.item_id) item.sub_items }

/-- The item-building loop of
state_manager._handle_generate_initial_checklist, with the enumeration
index made explicit (the handler starts it at 0). -/
def buildInitialItems : Nat → List ChecklistBullet → List ChecklistItem
  | _, [] => []
  | index, bullet :: rest =>
    let parent_id := itemDash ++ natChars (index + 1)
    { item_id := parent_id
      summary := bullet.summary
      detail := bullet.detail
      success_criteria := bullet.success_criteria
      sub_items := _build_sub_items_from_bullets parent_id 0 bullet.sub_items } ::
      buildInitialItems (index + 1) rest

/-- state_manager._handle_generate_initial_checklist. -/
def _handle_generate_initial_checklist (now : Nat) (state : ResearchState)
    (output : GenerateInitialChecklistOutput) : ResearchState :=
  { state with
    working := { state.working with
      checklist_items := buildInitialItems 0 output.items
      conversation_log := state.working.conversation_log ++
        [{ kind := .agent, content := output.ai_response, created_at := now
           metadata := .ofSkill .generate_initial_checklist }] }
    workflow := { state.workflow with
      questions_asked := 0
      phase := .asking_refinement_questions
      last_transition_at := now } }

/-- state_manager._handle_generate_refinement_questions. -/
def _handle_generate_refinement_questions (now : Nat) (state : ResearchState)
    (output : GenerateRefinementQuestionsOutput) : ResearchState :=
  let prompts : List RefinementPrompt :=
    output.questions.map fun q => { question := q.question, intent := q.intent }
  let agent_message :=
    if output.ai_response.isEmpty then "Here are a few clarification questions.".data
    else output.ai_response
  { state with
    working := { state.working with
      refinement_questions := prompts
      conversation_log := state.working.conversation_log ++
        [{ kind := .agent, content := agent_message, created_at := now
           metadata := .ofSkill .generate_refinement_questions }] ++
        prompts.map fun prompt =>
          { kind := .agent, content := prompt.question, created_at := now } }
    workflow := { state.workflow with
      questions_asked := state.workflow.questions_asked + prompts.length
      phase := if prompts.isEmpty then .check_approval else .awaiting_user_response
      last_transition_at := now } }

/-- One `update` step of the loop in
state_manager._handle_incorporate_refinements. The `items_by_id` dict is
modelled by last-match lookups on the current item list; its key set
always coincides with the set of ids present in the list. -/
def applyRefinementUpdate (items : List ChecklistItem)
    (update : RefinementUpdateModel) : List ChecklistItem :=
  match update.action with
  | .add =>
    if !strTruthy update.summary then items
    else
      let new_id :=
        match update.item_id with
        | some s => if s.isEmpty then _next_item_id (items.map (·.item_id)) else s
        | none => _next_item_id (items.map (·.item_id))
      let new_item : ChecklistItem :=
        { item_id := new_id
          summary := update.summary.getD []
          detail := update.detail
          success_criteria := update.success_criteria
          sub_items := _build_sub_items_from_bullets new_id 0 update.sub_items }
      let new_item :=
        if !update.sub_item_updates.isEmpty then
          _apply_sub_item_updates new_item update.sub_item_updates
        else new_item
      items ++ [new_item]
  | .remove =>
    match update.item_id with
    | some s =>
      if !s.isEmpty && items.any (fun item => item.item_id = s) then
        items.filter (fun item => !(item.item_id = s))
      else items
    | none => items
  | .update =>
    match update.item_id with
    | some s =>
      if !s.isEmpty && items.any (fun item => item.item_id = s) then
        updateLast (fun item => item.item_id = s)
          (fun item =>
            let item :=
              { item with
                summary := overrideStr update.summary item.summary
                detail := overrideOpt update.detail item.detail
                success_criteria := overrideOpt update.success_criteria item.success_criteria }
            let item :=
              if !update.sub_items.isEmpty then
                { item with sub_items := _build_sub_items_from_bullets item.item_id 0 update.sub_items }
              else item
            _apply_sub_item_updates item update.sub_item_updates)
          items
      else items
    | none => items

/-- state_manager._handle_incorporate_refinements. -/
def _handle_incorporate_refinements (now : Nat) (state : ResearchState)
    (output : IncorporateRefinementsOutput) : ResearchState :=
  let items := output.updates.foldl applyRefinementUpdate state.working.checklist_items
  let answer_text := state.working.latest_user_message.getD []
  { state with
    working := { state.working with
      checklist_items := items
      refinement_exchanges := state.working.refinement_exchanges ++
        state.working.refinement_questions.map fun prompt =>
          { question := prompt.question, intent := prompt.intent
            answer := answer_text, collected_at := now }
      refinement_questions := []
      latest_user_message := none
      conversation_log := state.working.conversation_log ++
        [{ kind := .agent, content := output.ai_response, created_at := now
           metadata := .ofSkill .incorporate_refinements }] }
    workflow := { state.workflow with
      phase := .check_approval
      last_transition_at := now } }

/-- The status a signal leaves on a matched (sub-)item:
`if signal.new_status and status != signal.new_status: status = new_status`
nets to "the new status when one is given, else the current one" (every
status enum value is truthy). -/
def signalStatus (sig : ProgressSignalModel) (current : ChecklistItemStatus) : ChecklistItemStatus :=
  match sig.new_status with
  | some st => st
  | none => current

/-- The note appended by a signal (`if signal.note:` — an empty note
string is falsy and appends nothing). -/
def signalNotes (sig : ProgressSignalModel) : List Str :=
  if strTruthy sig.note then [sig.note.getD []] else []

/-- In-place mutation of a matched item by a signal. -/
def applySignalToItem (sig : ProgressSignalModel) (item : ChecklistItem) : ChecklistItem :=
  { item with status := signalStatus sig item.status, notes := item.notes ++ signalNotes sig }

/-- In-place mutation of a matched sub-item by a signal. -/
def applySignalToSub (sig : ProgressSignalModel) (sub : ChecklistSubItem) : ChecklistSubItem :=
  { sub with status := signalStatus sig sub.status, notes := sub.notes ++ signalNotes sig }

/-- One `item_id` step of a signal's item loop in
state_manager._handle_interpret_progress_update: skip unknown ids,
otherwise mutate the item `items_by_id` points to (the last one bearing
the id) and record its resulting status in `transition_map`. -/
def stepSignalItemId (sig : ProgressSignalModel)
    (acc : List ChecklistItem × List (Str × ChecklistItemStatus)) (iid : Str) :
    List ChecklistItem × List (Str × ChecklistItemStatus) :=
  match lookupLast (fun item => item.item_id = iid) acc.1 with
  | none => acc
  | some item =>
    (updateLast (fun it => it.item_id = iid) (applySignalToItem sig) acc.1,
     dictInsert acc.2 iid (signalStatus sig item.status))

/-- Mutate, within the item list, the sub-item that `sub_items_by_id`
points to: the last sub-item bearing the id in the flattened traversal,
i.e. the last matching sub-item of the last item containing a match. -/
def updateLastSubIn (sid : Str) (f : ChecklistSubItem → ChecklistSubItem)
    (items : List ChecklistItem) : List ChecklistItem :=
  updateLast (fun item => item.sub_items.any (fun sub => sub.sub_item_id = sid))
    (fun item => { item with sub_items := updateLast (fun sub => sub.sub_item_id = sid) f item.sub_items })
    items

/-- Lookup of the sub-item `sub_items_by_id` points to. -/
def lookupLastSub (sid : Str) (items : List ChecklistItem) : Option ChecklistSubItem :=
  lookupLast (fun sub => sub.sub_item_id = sid) (items.map (·.sub_items)).flatten

/-- One `sub_item_id` step of a signal's sub-item loop. -/
def stepSignalSubId (sig : ProgressSignalModel)
    (acc : List ChecklistItem × List (Str × ChecklistItemStatus)) (sid : Str) :
    List ChecklistItem × List (Str × ChecklistItemStatus) :=
  match lookupLastSub sid acc.1 with
  | none => acc
  | some sub =>
    (updateLastSubIn sid (applySignalToSub sig) acc.1,
     dictInsert acc.2 sid (signalStatus sig sub.status))

/-- Processing of one signal: run the item loop, then the sub-item loop,
then append at most one progress-log entry (the item branch takes
priority). -/
def processSignal (now : Nat) (utext : Str)
    (acc : List ChecklistItem × List ProgressLogEntry) (sig : ProgressSignalModel) :
    List ChecklistItem × List ProgressLogEntry :=
  let itemFold := sig.item_ids.foldl (stepSignalItemId sig) (acc.1, [])
  let subFold := sig.sub_item_ids.foldl (stepSignalSubId sig) (itemFold.1, [])
  let items2 := subFold.1
  let tmap := itemFold.2
  let smap := subFold.2
  let plog := acc.2
  if !tmap.isEmpty then
    (items2, plog ++
      [{ user_text := utext
         referenced_item_ids := tmap.map (·.1)
         status_transitions := tmap
         sub_status_transitions := smap
         contextual_notes := sig.context
         recorded_at := now }])
  else if !smap.isEmpty then
    (items2, plog ++
      [{ user_text := utext
         referenced_item_ids := []
         status_transitions := []
         sub_status_transitions := smap
         contextual_notes := sig.context
         recorded_at := now }])
  else (items2, plog)

/-- state_manager._handle_interpret_progress_update. -/
def _handle_interpret_progress_update (now : Nat) (state : ResearchState)
    (output : InterpretProgressUpdateOutput) : ResearchState :=
  let utext := state.working.latest_user_message.getD []
  let signalFold :=
    output.signals.foldl (processSignal now utext) (state.working.checklist_items, state.working.progress_log)
  let items := signalFold.1
  let plog := signalFold.2
  let state1 : ResearchState :=
    { state with
      working := { state.working with
        checklist_items := items
        progress_log := plog
        conversation_log := state.working.conversation_log ++
          [{ kind := .agent, content := output.ai_response, created_at := now
             metadata := .ofSkill .interpret_progress_update }] } }
  let state2 : ResearchState :=
    if output.needs_clarification then
      { state1 with
        workflow := { state1.workflow with awaiting_clarification := true, phase := .asking_clarification }
        working := { state1.working with clarification_prompt := output.clarification_prompt } }
    else
      { state1 with
        workflow := { state1.workflow with
          awaiting_clarification := false
          phase := if checklist_is_complete state1 then .generating_summary else .acknowledging_progress }
        working := { state1.working with clarification_prompt := none } }
  { state2 with workflow := { state2.workflow with last_transition_at := now } }

/-- state_manager._handle_completion_summary. -/
def _handle_completion_summary (now : Nat) (state : ResearchState)
    (output : CompletionSummaryOutput) : ResearchState :=
  { state with
    working := { state.working with
      completion_summary := some output.ai_response
      conversation_log := state.working.conversation_log ++
        [{ kind := .agent, content := output.ai_response, created_at := now
           metadata := .ofSkill .generate_completion_summary }] }
    workflow := { state.workflow with
      phase := .presenting_summary
      last_transition_at := now } }

/-- engine.coordinator.Coordinator.next_action. -/
def next_action (state : ResearchState) : Decision :=
  let phase := state.workflow.phase
  if phase = .generating_checklist then
    Decision.llm .generate_initial_checklist "Transform the goal description into a checklist".data
  else if phase = .asking_refinement_questions then
    if state.workflow.questions_asked ≥ state.workflow.max_refinement_questions then
      Decision.noop "Awaiting user responses because refinement question limit was reached".data
    else
      Decision.llm .generate_refinement_questions "Need up to three clarifying questions".data
  else if phase = .processing_feedback then
    Decision.llm .incorporate_refinements "User provided refinement feedback".data
  else if phase = .interpreting_intent then
    Decision.llm .interpret_progress_update "Interpret the latest progress update".data
  else if phase = .generating_summary then
    Decision.llm .generate_completion_summary ("All items complete; compile the final summary").data
  else
    Decision.noop "No LLM action required for the current phase".data

/-! ### Arithmetic facts about the decimal rendering and its parses -/

theorem digitChar_isDigit {d : Nat} (h : d < 10) : (Nat.digitChar d).isDigit = true := by
  interval_cases d <;> decide

theorem digitVal_digitChar {d : Nat} (h : d < 10) : digitVal (Nat.digitChar d) = d := by
  interval_cases d <;> decide

theorem isDigit_ne_dash {c : Char} (h : c.isDigit = true) : c ≠ '-' := by
  intro he; subst he; simp [Char.isDigit] at h

theorem isDigit_ne_plus {c : Char} (h : c.isDigit = true) : c ≠ '+' := by
  intro he; subst he; simp [Char.isDigit] at h

theorem natCharsFuel_ne_nil : ∀ {fuel n : Nat}, n < fuel → natCharsFuel fuel n ≠ [] := by
  intro fuel
  induction fuel with
  | zero => intro n h; omega
  | succ f ih =>
    intro n h
    unfold natCharsFuel
    split
    · simp
    · simp

theorem natCharsFuel_all_digits :
    ∀ {fuel n : Nat}, n < fuel → ∀ c ∈ natCharsFuel fuel n, c.isDigit = true := by
  intro fuel
  induction fuel with
  | zero => intro n h; omega
  | succ f ih =>
    intro n h c hc
    unfold natCharsFuel at hc
    split at hc
    · rename_i h10
      simp at hc
      subst hc
      exact digitChar_isDigit h10
    · rename_i h10
      rcases List.mem_append.mp hc with h1 | h2
      · have hdiv : n / 10 < n := Nat.div_lt_self (by omega) (by omega)
        exact ih (by omega) c h1
      · simp at h2
        subst h2
        exact digitChar_isDigit (Nat.mod_lt _ (by omega))

/-- The fold of `parseDigits` recovers the rendered value. -/
theorem foldl_digitVal_natCharsFuel :
    ∀ {fuel n : Nat}, n < fuel →
      (natCharsFuel fuel n).foldl (fun acc c => acc * 10 + digitVal c) 0 = n := by
  intro fuel
  induction fuel with
  | zero => intro n h; omega
  | succ f ih =>
    intro n h
    unfold natCharsFuel
    split
    · rename_i h10
      simp [digitVal_digitChar h10]
    · rename_i h10
      have hdiv : n / 10 < n := Nat.div_lt_self (by omega) (by omega)
      rw [List.foldl_append, ih (by omega)]
      simp [digitVal_digitChar (Nat.mod_lt n (show 0 < 10 by omega))]
      omega

theorem natChars_ne_nil (n : Nat) : natChars n ≠ [] :=
  natCharsFuel_ne_nil (Nat.lt_succ_self n)

theorem natChars_all_digits (n : Nat) : ∀ c ∈ natChars n, c.isDigit = true :=
  natCharsFuel_all_digits (Nat.lt_succ_self n)

theorem parseDigits_natChars (n : Nat) : parseDigits (natChars n) = some n := by
  have h1 : (natChars n).isEmpty = false := by
    simp [List.isEmpty_iff, natChars_ne_nil n]
  have h2 : (natChars n).all Char.isDigit = true :=
    List.all_eq_true.mpr (natChars_all_digits n)
  have h3 : (natChars n).foldl (fun acc c => acc * 10 + digitVal c) 0 = n :=
    foldl_digitVal_natCharsFuel (Nat.lt_succ_self n)
  unfold parseDigits
  rw [h1, h2, h3]
  simp

theorem natChars_injective {a b : Nat} (h : natChars a = natChars b) : a = b := by
  have := parseDigits_natChars a
  rw [h, parseDigits_natChars b] at this
  exact (Option.some_injective _ this).symm

theorem pyInt?_natChars (n : Nat) : pyInt? (natChars n) = some (n : Int) := by
  rcases he : natChars n with _ | ⟨c, rest⟩
  · exact absurd he (natChars_ne_nil n)
  · have hd : c.isDigit = true := by
      have := natChars_all_digits n
      rw [he] at this
      exact this c (by simp)
    simp only [pyInt?]
    rw [if_neg (by simp [isDigit_ne_dash hd]), if_neg (by simp [isDigit_ne_plus hd]),
      ← he, parseDigits_natChars n]
    rfl

theorem natChars_no_dash (n : Nat) : ∀ c ∈ natChars n, ¬(c = '-') := by
  intro c hc he
  exact isDigit_ne_dash (natChars_all_digits n c hc) he

/-! ### The generated ids are fresh -/

theorem foldl_max_init_le (g : Int → Str → Int) (hmono : ∀ m x, m ≤ g m x) :
    ∀ (l : List Str) (init : Int), init ≤ l.foldl g init := by
  intro l
  induction l with
  | nil => intro init; exact le_refl _
  | cons x xs ih => intro init; exact le_trans (hmono init x) (ih (g init x))

theorem nextItemIndex_step_mono :
    ∀ (m : Int) (id : Str),
      m ≤ (if itemDash.isPrefixOf id then
              match pyInt? (id.drop 5) with
              | some v => max m v
              | none => m
            else m) := by
  intro m id
  split
  · rcases pyInt? (id.drop 5) with _ | v
    · exact le_refl m
    · exact le_max_left m v
  · exact le_refl m

theorem nextItemIndex_nonneg (ids : List Str) : 0 ≤ nextItemIndex ids :=
  foldl_max_init_le _ nextItemIndex_step_mono ids 0

theorem nextItemIndex_ge :
    ∀ (ids : List Str) (init : Int) {id : Str} {v : Int}, id ∈ ids →
      itemDash.isPrefixOf id = true → pyInt? (id.drop 5) = some v →
      v ≤ ids.foldl
        (fun m id =>
          if itemDash.isPrefixOf id then
            match pyInt? (id.drop 5) with
            | some v => max m v
            | none => m
          else m) init := by
  intro ids
  induction ids with
  | nil => intro init id v h; cases h
  | cons x xs ih =>
    intro init id v hmem hp hv
    rcases List.mem_cons.mp hmem with he | hm
    · subst he
      simp only [List.foldl_cons]
      refine le_trans ?_ (foldl_max_init_le _ nextItemIndex_step_mono xs _)
      rw [if_pos hp, hv]
      exact le_max_right init v
    · exact ih _ hm hp hv

theorem _next_item_id_fresh (ids : List Str) : _next_item_id ids ∉ ids := by
  intro hmem
  set K := (nextItemIndex ids + 1).toNat with hK
  have hpre : itemDash.isPrefixOf (itemDash ++ natChars K) = true :=
    List.isPrefixOf_iff_prefix.mpr (List.prefix_append _ _)
  have hdrop : (itemDash ++ natChars K).drop 5 = natChars K := by
    have : itemDash.length = 5 := rfl
    rw [← this, List.drop_left]
  have hparse : pyInt? ((itemDash ++ natChars K).drop 5) = some (K : Int) := by
    rw [hdrop]; exact pyInt?_natChars K
  have hle : (K : Int) ≤ nextItemIndex ids :=
    nextItemIndex_ge ids 0 hmem hpre hparse
  have hKval : (K : Int) = nextItemIndex ids + 1 := by
    rw [hK]
    exact Int.toNat_of_nonneg (by have := nextItemIndex_nonneg ids; omega)
  omega

theorem takeWhile_append_cons_of_all {p : Char → Bool} {l₁ l₂ : List Char} {b : Char}
    (h : ∀ c ∈ l₁, p c = true) (hb : p b = false) :
    (l₁ ++ b :: l₂).takeWhile p = l₁ := by
  induction l₁ with
  | nil => simp [List.takeWhile_cons, hb]
  | cons x xs ih =>
    have hx : p x = true := h x (by simp)
    simp [List.takeWhile_cons, hx, ih (fun c hc => h c (List.mem_cons_of_mem _ hc))]

theorem lastComp_append_natChars (p : Str) (K : Nat) :
    lastComp (p ++ ['-'] ++ natChars K) = natChars K := by
  unfold lastComp
  rw [List.reverse_append, List.reverse_append]
  simp only [List.reverse_cons, List.reverse_nil, List.nil_append, List.append_assoc,
    List.singleton_append]
  rw [takeWhile_append_cons_of_all (p := fun c => !(c = '-'))
    (fun c hc => by
      have := natChars_no_dash K c (List.mem_reverse.mp hc)
      simp [this])
    (by simp)]
  simp

theorem nextSubIndex_step_mono (parent_id : Str) :
    ∀ (m : Int) (sub_id : Str),
      m ≤ (if (parent_id ++ ['-']).isPrefixOf sub_id then
              match pyInt? (lastComp sub_id) with
              | some v => max m v
              | none => m
            else m) := by
  intro m sub_id
  split
  · rcases pyInt? (lastComp sub_id) with _ | v
    · exact le_refl m
    · exact le_max_left m v
  · exact le_refl m

theorem nextSubIndex_nonneg (parent_id : Str) (ids : List Str) :
    0 ≤ nextSubIndex parent_id ids :=
  foldl_max_init_le _ (nextSubIndex_step_mono parent_id) ids 0

theorem nextSubIndex_ge (parent_id : Str) :
    ∀ (ids : List Str) (init : Int) {sub_id : Str} {v : Int}, sub_id ∈ ids →
      (parent_id ++ ['-']).isPrefixOf sub_id = true → pyInt? (lastComp sub_id) = some v →
      v ≤ ids.foldl
        (fun m sub_id =>
          if (parent_id ++ ['-']).isPrefixOf sub_id then
            match pyInt? (lastComp sub_id) with
            | some v => max m v
            | none => m
          else m) init := by
  intro ids
  induction ids with
  | nil => intro init sub_id v h; cases h
  | cons x xs ih =>
    intro init sub_id v hmem hp hv
    rcases List.mem_cons.mp hmem with he | hm
    · subst he
      simp only [List.foldl_cons]
      refine le_trans ?_ (foldl_max_init_le _ (nextSubIndex_step_mono parent_id) xs _)
      rw [if_pos hp, hv]
      exact le_max_right init v
    · exact ih _ hm hp hv

theorem _next_sub_item_id_fresh (parent_id : Str) (ids : List Str) :
    _next_sub_item_id parent_id ids ∉ ids := by
  intro hmem
  set K := (nextSubIndex parent_id ids + 1).toNat with hK
  have hpre : (parent_id ++ ['-']).isPrefixOf (parent_id ++ ['-'] ++ natChars K) = true :=
    List.isPrefixOf_iff_prefix.mpr (List.prefix_append _ _)
  have hparse : pyInt? (lastComp (parent_id ++ ['-'] ++ natChars K)) = some (K : Int) := by
    rw [lastComp_append_natChars]; exact pyInt?_natChars K
  have hle : (K : Int) ≤ nextSubIndex parent_id ids :=
    nextSubIndex_ge parent_id ids 0 hmem hpre hparse
  have hKval : (K : Int) = nextSubIndex parent_id ids + 1 := by
    rw [hK]
    exact Int.toNat_of_nonneg (by have := nextSubIndex_nonneg parent_id ids; omega)
  omega

/-! ### Lemmas about last-match updates, lookups and dict insertion -/

theorem updateFirst_map_eq {α β : Type} {p : α → Bool} {f : α → α} {g : α → β}
    (h : ∀ x, p x = true → g (f x) = g x) :
    ∀ l : List α, (updateFirst p f l).map g = l.map g := by
  intro l
  induction l with
  | nil => rfl
  | cons x xs ih =>
    unfold updateFirst
    split
    · rename_i hp
      simp [h x hp]
    · simp [ih]

theorem updateLast_map_eq {α β : Type} {p : α → Bool} {f : α → α} {g : α → β}
    (h : ∀ x, p x = true → g (f x) = g x) (l : List α) :
    (updateLast p f l).map g = l.map g := by
  unfold updateLast
  rw [List.map_reverse, updateFirst_map_eq h, ← List.map_reverse, List.reverse_reverse]

theorem mem_updateFirst {α : Type} {p : α → Bool} {f : α → α} :
    ∀ {l : List α} {x : α}, x ∈ updateFirst p f l → x ∈ l ∨ ∃ y ∈ l, x = f y := by
  intro l
  induction l with
  | nil => intro x h; cases h
  | cons a as ih =>
    intro x h
    unfold updateFirst at h
    split at h
    · rcases List.mem_cons.mp h with he | hm
      · exact Or.inr ⟨a, by simp, he⟩
      · exact Or.inl (by simp [hm])
    · rcases List.mem_cons.mp h with he | hm
      · exact Or.inl (by simp [he])
      · rcases ih hm with h1 | ⟨y, hy, he2⟩
        · exact Or.inl (by simp [h1])
        · exact Or.inr ⟨y, by simp [hy], he2⟩

theorem mem_updateLast {α : Type} {p : α → Bool} {f : α → α} {l : List α} {x : α}
    (h : x ∈ updateLast p f l) : x ∈ l ∨ ∃ y ∈ l, x = f y := by
  unfold updateLast at h
  rcases mem_updateFirst (List.mem_reverse.mp h) with h1 | ⟨y, hy, he⟩
  · exact Or.inl (List.mem_reverse.mp h1)
  · exact Or.inr ⟨y, List.mem_reverse.mp hy, he⟩

theorem lookupLast_eq_none_iff {α : Type} {p : α → Bool} {l : List α} :
    lookupLast p l = none ↔ ∀ x ∈ l, p x = false := by
  unfold lookupLast
  rw [List.find?_eq_none]
  constructor
  · intro h x hx
    have := h x (List.mem_reverse.mpr hx)
    simp at this
    simp [this]
  · intro h x hx
    simp [h x (List.mem_reverse.mp hx)]

theorem lookupLast_isSome_of_mem {α : Type} {p : α → Bool} {l : List α} {x : α}
    (hx : x ∈ l) (hp : p x = true) : ∃ y, lookupLast p l = some y := by
  rcases h : lookupLast p l with _ | y
  · rw [lookupLast_eq_none_iff] at h
    rw [h x hx] at hp
    cases hp
  · exact ⟨y, rfl⟩

theorem dictInsert_keys (m : List (Str × ChecklistItemStatus)) (k : Str) (v : ChecklistItemStatus) :
    (dictInsert m k v).map (·.1) =
      if m.any (fun p => p.1 = k) then m.map (·.1) else m.map (·.1) ++ [k] := by
  unfold dictInsert
  split
  · rw [List.map_map]
    apply List.map_congr_left
    intro p _
    simp only [Function.comp_apply]
    split <;> rfl
  · simp

theorem dictInsert_ne_nil (m : List (Str × ChecklistItemStatus)) (k : Str) (v : ChecklistItemStatus) :
    dictInsert m k v ≠ [] := by
  unfold dictInsert
  split
  · rename_i h
    intro he
    rw [List.map_eq_nil_iff] at he
    subst he
    simp at h
  · simp

/-! ### Claim theorems -/

/-- C4: `checklist_is_complete` returns true if and only if the checklist
item list is non-empty, every item has status complete, and every
sub-item of every item has status complete; any single non-complete item
or sub-item, or an empty item list, forces false. -/
theorem checklist_is_complete_iff (state : ResearchState) :
    checklist_is_complete state = true ↔
      (state.working.checklist_items ≠ [] ∧
       ∀ item ∈ state.working.checklist_items,
         item.status = ChecklistItemStatus.complete ∧
         ∀ sub ∈ item.sub_items, sub.status = ChecklistItemStatus.complete) := by
  unfold checklist_is_complete
  split
  · rename_i h
    rw [List.isEmpty_iff] at h
    simp [h]
  · rename_i h
    have h' : state.working.checklist_items ≠ [] := by
      intro he
      rw [List.isEmpty_iff] at h
      exact h he
    simp [List.all_eq_true, h']

/-- C5: applying the refinement-questions handler with N questions
increases `questions_asked` by exactly N, replaces the pending prompt
list with those N prompts, and sets the phase to `awaiting_user_response`
when N > 0 and to `check_approval` when N = 0. -/
theorem refinement_questions_handler_spec (now : Nat) (s : ResearchState)
    (out : GenerateRefinementQuestionsOutput) :
    (_handle_generate_refinement_questions now s out).workflow.questions_asked
        = s.workflow.questions_asked + out.questions.length ∧
    (_handle_generate_refinement_questions now s out).working.refinement_questions
        = out.questions.map (fun q => { question := q.question, intent := q.intent }) ∧
    (_handle_generate_refinement_questions now s out).workflow.phase
        = (if out.questions.length = 0 then WorkflowPhase.check_approval
           else WorkflowPhase.awaiting_user_response) := by
  refine ⟨?_, rfl, ?_⟩
  · simp [_handle_generate_refinement_questions]
  · simp only [_handle_generate_refinement_questions]
    rcases hq : out.questions with _ | ⟨q, qs⟩ <;> simp

/-- C2: each of the three text-ingestion transitions is the identity on
the state when the input strips to the empty string (whitespace-only or
empty input): same phase, no new conversation entry, same working memory,
unchanged `last_transition_at`. -/
theorem empty_text_ingestion_noop (now : Nat) (s : ResearchState) (t : Str)
    (h : pyStrip t = []) :
    ingest_user_description now s t = s ∧ record_user_feedback now s t = s ∧
      ingest_progress_input now s t = s := by
  unfold ingest_user_description record_user_feedback ingest_progress_input
  rw [h]
  simp

/-- Witness for C2 at a concrete whitespace-only input and the default
state. -/
theorem empty_text_ingestion_noop_witness :
    pyStrip (" \t ".data) = [] ∧ ingest_user_description 3 {} (" \t ".data) = {} :=
  ⟨by decide, (empty_text_ingestion_noop 3 {} (" \t ".data) (by decide)).1⟩

/-- C10: `mark_checklist_rejected` with an empty or whitespace-only
reason still sets the phase to `processing_feedback` and updates
`last_transition_at`, while appending no conversation entry and leaving
every other field unchanged; in particular it is not a full no-op on a
state whose phase differs from `processing_feedback`. -/
theorem mark_checklist_rejected_empty_reason (now : Nat) (s : ResearchState) (r : Str)
    (h : pyStrip r = []) :
    mark_checklist_rejected now s r =
      { s with workflow := { s.workflow with
          phase := WorkflowPhase.processing_feedback
          last_transition_at := now } } ∧
    (s.workflow.phase ≠ WorkflowPhase.processing_feedback →
      mark_checklist_rejected now s r ≠ s) := by
  have heq : mark_checklist_rejected now s r =
      { s with workflow := { s.workflow with
          phase := WorkflowPhase.processing_feedback
          last_transition_at := now } } := by
    unfold mark_checklist_rejected
    rw [h]
    simp
  refine ⟨heq, ?_⟩
  intro hne hid
  apply hne
  rw [heq] at hid
  have h2 := congrArg (fun st => st.workflow.phase) hid
  simpa using h2.symm

/-- Witness for C10 at a concrete empty reason and the default (idle)
state. -/
theorem mark_checklist_rejected_empty_reason_witness :
    mark_checklist_rejected 4 {} ("  ".data) =
      { workflow := { phase := WorkflowPhase.processing_feedback, last_transition_at := 4 } } ∧
    mark_checklist_rejected 4 {} ("  ".data) ≠ {} :=
  ⟨(mark_checklist_rejected_empty_reason 4 {} ("  ".data) (by decide)).1,
   (mark_checklist_rejected_empty_reason 4 {} ("  ".data) (by decide)).2 (by decide)⟩

/-- C6: on a state in phase `asking_refinement_questions`, the
coordinator returns the generate-refinement-questions llm_skill decision
when `questions_asked < max_refinement_questions`, and a noop decision
when `questions_asked ≥ max_refinement_questions`, regardless of any
other field of the state. -/
theorem coordinator_refinement_limit (s : ResearchState)
    (h : s.workflow.phase = WorkflowPhase.asking_refinement_questions) :
    (s.workflow.questions_asked < s.workflow.max_refinement_questions →
      next_action s = Decision.llm SkillName.generate_refinement_questions
        ("Need up to three clarifying questions").data) ∧
    (s.workflow.questions_asked ≥ s.workflow.max_refinement_questions →
      next_action s = Decision.noop
        ("Awaiting user responses because refinement question limit was reached").data) := by
  constructor
  · intro hq
    unfold next_action
    rw [h]
    rw [if_neg (by simp), if_pos rfl, if_neg (by omega)]
  · intro hq
    unfold next_action
    rw [h]
    rw [if_neg (by simp), if_pos rfl, if_pos hq]

/-- Witness for C6 at the question ceiling (3 of 3 questions asked) and
below it (0 of 3). -/
theorem coordinator_refinement_limit_witness :
    next_action { workflow := { phase := WorkflowPhase.asking_refinement_questions
                                questions_asked := 3 } } =
      Decision.noop ("Awaiting user responses because refinement question limit was reached").data ∧
    next_action { workflow := { phase := WorkflowPhase.asking_refinement_questions } } =
      Decision.llm SkillName.generate_refinement_questions
        ("Need up to three clarifying questions").data :=
  ⟨(coordinator_refinement_limit _ rfl).2 (by decide),
   (coordinator_refinement_limit _ rfl).1 (by decide)⟩

/-- C9: `build_artifact` fails (raising the missing-description error) if
and only if `original_description` is unset; when it is set, the returned
artifact's `conversation_excerpt` is exactly the last 10 (or all, if
fewer) conversation-log entries in order. The embedded function only
reads the state, mirroring that the Python function never mutates it. -/
theorem build_artifact_spec (now : Nat) (s : ResearchState) :
    ((∃ e, build_artifact now s = Except.error e) ↔ s.working.original_description = none) ∧
    (∀ a, build_artifact now s = Except.ok a →
      a.conversation_excerpt =
        s.working.conversation_log.drop (s.working.conversation_log.length - 10)) := by
  unfold build_artifact
  rcases hd : s.working.original_description with _ | d
  · exact ⟨⟨fun _ => rfl, fun _ => ⟨_, rfl⟩⟩, fun a ha => absurd ha (by simp)⟩
  · refine ⟨⟨fun ⟨e, he⟩ => absurd he (by simp),
      fun hn => absurd hn (by simp)⟩, fun a ha => ?_⟩
    cases ha
    rfl

/-- Concrete state for the C9 witness: a description is set and the
conversation log holds 12 entries. -/
def c9state : ResearchState :=
  { working := { original_description := some ['d']
                 conversation_log := (List.range 12).map
                   (fun i => { kind := .user, content := [], created_at := i }) } }

/-- The artifact `build_artifact` produces on `c9state`. -/
def c9artifact : ChecklistArtifact :=
  match build_artifact 0 c9state with
  | .ok a => a
  | .error _ =>
    { task_description := [], created_at := 0, items := [], refinement_context := []
      progress_log := [] }

/-- Witness for C9: the default state (no description) errors, and on
`c9state` the excerpt is the last 10 of the 12 log entries. -/
theorem build_artifact_spec_witness :
    (∃ e, build_artifact 0 ({} : ResearchState) = Except.error e) ∧
    build_artifact 0 c9state = Except.ok c9artifact ∧
    c9artifact.conversation_excerpt =
      c9state.working.conversation_log.drop (c9state.working.conversation_log.length - 10) :=
  ⟨(build_artifact_spec 0 {}).1.mpr rfl, rfl,
   (build_artifact_spec 0 c9state).2 c9artifact rfl⟩

/-- The (item id, status, sub-item ids) shape the spec prescribes for the
initial checklist: ids `item-1..n` in proposal order, each with status
pending, the k-th item's m sub-items carrying ids `item-k-1..item-k-m`.
Stated from the spec's words, to be compared with the handler. -/
def initialShapeSpec : Nat → List ChecklistBullet → List (Str × ChecklistItemStatus × List Str)
  | _, [] => []
  | k, b :: bs =>
    (itemDash ++ natChars (k + 1), ChecklistItemStatus.pending,
      (List.range b.sub_items.length).map
        (fun j => itemDash ++ natChars (k + 1) ++ ['-'] ++ natChars (j + 1))) ::
      initialShapeSpec (k + 1) bs

theorem build_sub_items_ids (parent_id : Str) :
    ∀ (bs : List ChecklistSubBullet) (i : Nat),
      (_build_sub_items_from_bullets parent_id i bs).map (·.sub_item_id) =
        (List.range bs.length).map (fun j => parent_id ++ ['-'] ++ natChars (i + j + 1)) := by
  intro bs
  induction bs with
  | nil => intro i; rfl
  | cons b rest ih =>
    intro i
    simp only [_build_sub_items_from_bullets, List.map_cons, List.length_cons,
      List.range_succ_eq_map, List.map_map, List.cons.injEq]
    refine ⟨trivial, ?_⟩
    rw [ih (i + 1)]
    apply List.map_congr_left
    intro j _
    simp only [Function.comp_apply]
    have : i + 1 + j + 1 = i + (j + 1) + 1 := by omega
    rw [this]

theorem buildInitialItems_shape :
    ∀ (bs : List ChecklistBullet) (k : Nat),
      (buildInitialItems k bs).map
          (fun it => (it.item_id, it.status, it.sub_items.map (·.sub_item_id))) =
        initialShapeSpec k bs := by
  intro bs
  induction bs with
  | nil => intro k; rfl
  | cons b rest ih =>
    intro k
    simp only [buildInitialItems, initialShapeSpec, List.map_cons, List.cons.injEq,
      Prod.mk.injEq]
    refine ⟨⟨trivial, trivial, ?_⟩, ih (k + 1)⟩
    rw [build_sub_items_ids]
    apply List.map_congr_left
    intro j _
    have : 0 + j + 1 = j + 1 := by omega
    rw [this, List.append_assoc]

/-- C7: the initial-checklist handler replaces the checklist with the
proposed items carrying generated sequential ids `item-1..n` in proposal
order, all pending, the k-th item's m sub-items carrying ids
`item-k-1..item-k-m` in order; `questions_asked` is reset to 0 and the
phase becomes `asking_refinement_questions`. -/
theorem initial_checklist_handler_spec (now : Nat) (s : ResearchState)
    (out : GenerateInitialChecklistOutput) :
    (_handle_generate_initial_checklist now s out).working.checklist_items.map
        (fun it => (it.item_id, it.status, it.sub_items.map (·.sub_item_id))) =
      initialShapeSpec 0 out.items ∧
    (_handle_generate_initial_checklist now s out).workflow.questions_asked = 0 ∧
    (_handle_generate_initial_checklist now s out).workflow.phase =
      WorkflowPhase.asking_refinement_questions :=
  ⟨buildInitialItems_shape out.items 0, rfl, rfl⟩

theorem filter_ne_length_of_nodup :
    ∀ (items : List ChecklistItem) (x : Str), (items.map (·.item_id)).Nodup →
      (∃ it ∈ items, it.item_id = x) →
      (items.filter (fun it => !(it.item_id = x))).length + 1 = items.length := by
  intro items
  induction items with
  | nil => intro x _ h; rcases h with ⟨it, hmem, _⟩; cases hmem
  | cons a l ih =>
    intro x hnd hex
    rw [List.map_cons, List.nodup_cons] at hnd
    by_cases hax : a.item_id = x
    · have hrest : ∀ it ∈ l, it.item_id ≠ x := by
        intro it hit he
        apply hnd.1
        rw [hax, ← he]
        exact List.mem_map_of_mem _ hit
      rw [List.filter_cons_of_neg (by simp [hax]),
        List.filter_eq_self.mpr (fun it hit => by simpa using hrest it hit)]
      simp
    · rcases hex with ⟨it, hmem, hit⟩
      rcases List.mem_cons.mp hmem with he | hm
      · subst he; exact absurd hit hax
      · rw [List.filter_cons_of_pos (by simp [hax])]
        simp only [List.length_cons]
        rw [ih x hnd.2 ⟨it, hm, hit⟩]

/-- C8 (amended): within an incorporate-refinements output, a `remove`
instruction carrying a non-empty item_id that matches an existing item
removes every item bearing that id, preserving the relative order of the
remaining items — exactly one item when the item ids are pairwise
distinct; an `update` or `remove` instruction whose item_id matches no
existing item (or is absent) leaves the item list unchanged; and an `add`
instruction without an explicit id is appended with the generated id
`item-(maxIndex+1)`, which does not occur among the existing ids. -/
theorem incorporate_single_update_spec (now : Nat) (s : ResearchState) (r : Str)
    (u : RefinementUpdateModel) :
    (∀ x, u.action = RefinementAction.remove → u.item_id = some x → x ≠ [] →
      (∃ it ∈ s.working.checklist_items, it.item_id = x) →
      (_handle_incorporate_refinements now s
          { ai_response := r, updates := [u] }).working.checklist_items =
        s.working.checklist_items.filter (fun it => !(it.item_id = x)) ∧
      ((s.working.checklist_items.map (·.item_id)).Nodup →
        (_handle_incorporate_refinements now s
            { ai_response := r, updates := [u] }).working.checklist_items.length + 1 =
          s.working.checklist_items.length)) ∧
    ((u.action = RefinementAction.remove ∨ u.action = RefinementAction.update) →
      (∀ x, u.item_id = some x → ∀ it ∈ s.working.checklist_items, it.item_id ≠ x) →
      (_handle_incorporate_refinements now s
          { ai_response := r, updates := [u] }).working.checklist_items =
        s.working.checklist_items) ∧
    (u.action = RefinementAction.add → u.item_id = none → strTruthy u.summary = true →
      (_handle_incorporate_refinements now s
          { ai_response := r, updates := [u] }).working.checklist_items.map (·.item_id) =
        s.working.checklist_items.map (·.item_id) ++
          [_next_item_id (s.working.checklist_items.map (·.item_id))] ∧
      _next_item_id (s.working.checklist_items.map (·.item_id)) ∉
        s.working.checklist_items.map (·.item_id)) := by
  have hfold : (_handle_incorporate_refinements now s
      { ai_response := r, updates := [u] }).working.checklist_items =
      applyRefinementUpdate s.working.checklist_items u := rfl
  refine ⟨?_, ?_, ?_⟩
  · intro x hact hid hx hex
    have hres : applyRefinementUpdate s.working.checklist_items u =
        s.working.checklist_items.filter (fun it => !(it.item_id = x)) := by
      have hany : (s.working.checklist_items.any fun item => decide (item.item_id = x)) = true := by
        rw [List.any_eq_true]
        rcases hex with ⟨it, hmem, hit⟩
        exact ⟨it, hmem, by simp [hit]⟩
      have hne : x.isEmpty = false := by simp [List.isEmpty_iff, hx]
      unfold applyRefinementUpdate
      rw [hact, hid]
      simp [hne, hany]
    refine ⟨hfold.trans hres, fun hnd => ?_⟩
    rw [hfold, hres]
    exact filter_ne_length_of_nodup _ x hnd hex
  · intro hor hno
    rw [hfold]
    unfold applyRefinementUpdate
    have hany : ∀ x, u.item_id = some x →
        (s.working.checklist_items.any fun item => decide (item.item_id = x)) = false := by
      intro x hid
      rw [Bool.eq_false_iff]
      intro hc
      rw [List.any_eq_true] at hc
      rcases hc with ⟨it, hmem, hit⟩
      exact hno x hid it hmem (by simpa using hit)
    rcases hor with hact | hact <;> rw [hact] <;>
      rcases hid : u.item_id with _ | x
    · rfl
    · simp [hany x hid]
    · rfl
    · simp [hany x hid]
  · intro hact hid hsum
    rw [hfold]
    unfold applyRefinementUpdate
    rw [hact, hid]
    refine ⟨?_, _next_item_id_fresh _⟩
    simp only [hsum, Bool.not_true, Bool.false_eq_true, if_false, List.map_append]
    congr 1
    split <;> rfl

/-- Witness for C8 at concrete inputs: removing `item-2` from
`item-1, item-2, item-3` leaves `item-1, item-3`; removing an unknown id
changes nothing; an id-less add onto `item-1, item-3` appends `item-4`. -/
theorem incorporate_single_update_spec_witness :
    (_handle_incorporate_refinements 0
        { working := { checklist_items := [{ item_id := "item-1".data, summary := ['a'] },
                                           { item_id := "item-2".data, summary := ['b'] },
                                           { item_id := "item-3".data, summary := ['c'] }] } }
        { ai_response := [], updates := [{ item_id := some ("item-2".data),
                                           action := RefinementAction.remove }] }
      ).working.checklist_items =
      [{ item_id := "item-1".data, summary := ['a'] },
       { item_id := "item-3".data, summary := ['c'] }] ∧
    (_handle_incorporate_refinements 0
        { working := { checklist_items := [{ item_id := "item-1".data, summary := ['a'] }] } }
        { ai_response := [], updates := [{ item_id := some ("item-9".data),
                                           action := RefinementAction.update
                                           summary := some ['z'] }] }
      ).working.checklist_items =
      [{ item_id := "item-1".data, summary := ['a'] }] ∧
    (_handle_incorporate_refinements 0
        { working := { checklist_items := [{ item_id := "item-1".data, summary := ['a'] },
                                           { item_id := "item-3".data, summary := ['c'] }] } }
        { ai_response := [], updates := [{ action := RefinementAction.add
                                           summary := some ['n'] }] }
      ).working.checklist_items.map (·.item_id) =
      ["item-1".data, "item-3".data, "item-4".data] := by
  refine ⟨?_, ?_, ?_⟩
  · have h := ((incorporate_single_update_spec 0
      { working := { checklist_items := [{ item_id := "item-1".data, summary := ['a'] },
                                         { item_id := "item-2".data, summary := ['b'] },
                                         { item_id := "item-3".data, summary := ['c'] }] } }
      [] { item_id := some ("item-2".data), action := RefinementAction.remove }).1
      ("item-2".data) rfl rfl (by decide)
      ⟨{ item_id := "item-2".data, summary := ['b'] }, by decide, rfl⟩).1
    rw [h]
    decide
  · have h := (incorporate_single_update_spec 0
      { working := { checklist_items := [{ item_id := "item-1".data, summary := ['a'] }] } }
      [] { item_id := some ("item-9".data), action := RefinementAction.update
           summary := some ['z'] }).2.1 (Or.inr rfl) (by decide)
    rw [h]
  · have h := ((incorporate_single_update_spec 0
      { working := { checklist_items := [{ item_id := "item-1".data, summary := ['a'] },
                                         { item_id := "item-3".data, summary := ['c'] }] } }
      [] { action := RefinementAction.add, summary := some ['n'] }).2.2 rfl rfl
      (by decide)).1
    rw [h]
    decide

/-- Concrete state whose checklist carries a duplicated id `item-1`
(reachable in the code through an add instruction bearing an explicit
duplicate id). -/
def c8dupState : ResearchState :=
  { working := { checklist_items := [{ item_id := "item-1".data, summary := ['a'] },
                                     { item_id := "item-1".data, summary := ['b'] },
                                     { item_id := "item-2".data, summary := ['c'] }] } }

/-- Counterexample to C8 as stated: on a state holding three items whose
ids are `item-1, item-1, item-2`, a remove of `item-1` (an id matching an
existing item) deletes TWO items, not exactly the one — the result holds
a single item instead of two. -/
theorem incorporate_remove_counterexample :
    c8dupState.working.checklist_items.length = 3 ∧
    (_handle_incorporate_refinements 0 c8dupState
        { ai_response := [], updates := [{ item_id := some ("item-1".data),
                                           action := RefinementAction.remove }] }
      ).working.checklist_items.map (·.item_id) = ["item-2".data] ∧
    (_handle_incorporate_refinements 0 c8dupState
        { ai_response := [], updates := [{ item_id := some ("item-1".data),
                                           action := RefinementAction.remove }] }
      ).working.checklist_items.length ≠ c8dupState.working.checklist_items.length - 1 := by
  refine ⟨rfl, by decide, by decide⟩

/-- The spec's id-uniqueness invariant: item ids are pairwise distinct
within the item list, and each item's sub-item ids are pairwise distinct
within that parent. -/
def UniqueIds (items : List ChecklistItem) : Prop :=
  (items.map (·.item_id)).Nodup ∧
  ∀ it ∈ items, (it.sub_items.map (·.sub_item_id)).Nodup

instance (items : List ChecklistItem) : Decidable (UniqueIds items) := by
  unfold UniqueIds
  infer_instance

/-- An item transformation that changes neither the item id nor the
sub-item id list. -/
def preservesIds (f : ChecklistItem → ChecklistItem) : Prop :=
  ∀ it, (f it).item_id = it.item_id ∧
    (f it).sub_items.map (·.sub_item_id) = it.sub_items.map (·.sub_item_id)

theorem UniqueIds_updateLast {p : ChecklistItem → Bool} {f : ChecklistItem → ChecklistItem}
    (hf : preservesIds f) {items : List ChecklistItem} (h : UniqueIds items) :
    UniqueIds (updateLast p f items) := by
  constructor
  · rw [updateLast_map_eq (fun x _ => (hf x).1)]
    exact h.1
  · intro it hit
    rcases mem_updateLast hit with h1 | ⟨y, hy, he⟩
    · exact h.2 it h1
    · rw [he, (hf y).2]
      exact h.2 y hy

theorem build_sub_items_nodup (parent_id : Str) (i : Nat) (bs : List ChecklistSubBullet) :
    ((_build_sub_items_from_bullets parent_id i bs).map (·.sub_item_id)).Nodup := by
  rw [build_sub_items_ids]
  refine List.Nodup.map_on ?_ (List.nodup_range _)
  intro j _ k _ he
  have := natChars_injective (List.append_cancel_left he)
  omega

theorem nodup_concat_of_not_mem {l : List Str} {a : Str} (h : l.Nodup) (ha : a ∉ l) :
    (l ++ [a]).Nodup := by
  simp [List.nodup_append, h, ha]

theorem sub_update_map_ids (x : Str) (csum cdet ccrit : Option Str)
    (subs : List ChecklistSubItem) :
    (updateLast (fun sub => sub.sub_item_id = x)
        (fun sub => { sub with summary := overrideStr csum sub.summary
                               detail := overrideOpt cdet sub.detail
                               success_criteria := overrideOpt ccrit sub.success_criteria })
        subs).map (·.sub_item_id) = subs.map (·.sub_item_id) := by
  apply updateLast_map_eq
  intro sub hsub
  rfl

theorem applySubItemChange_nodup (parent_id : Str) (subs : List ChecklistSubItem)
    (change : RefinementSubItemUpdateModel)
    (hnd : (subs.map (·.sub_item_id)).Nodup)
    (hadd : change.action = RefinementAction.add → strTruthy change.sub_item_id = false) :
    ((applySubItemChange parent_id subs change).map (·.sub_item_id)).Nodup := by
  obtain ⟨csid, cact, csum, cdet, ccrit⟩ := change
  cases cact with
  | add =>
    have hexp : strTruthy csid = false := hadd rfl
    rcases hsum : strTruthy csum with _ | _
    · simpa [applySubItemChange, hsum] using hnd
    · rcases csid with _ | x
      · simp only [applySubItemChange, hsum, Bool.not_true, Bool.false_eq_true, if_false,
          List.map_append, List.map_cons, List.map_nil]
        exact nodup_concat_of_not_mem hnd (_next_sub_item_id_fresh parent_id _)
      · have hxe : x.isEmpty = true := by
          unfold strTruthy at hexp
          simpa using hexp
        simp only [applySubItemChange, hsum, Bool.not_true, Bool.false_eq_true, if_false,
          hxe, if_true, List.map_append, List.map_cons, List.map_nil]
        exact nodup_concat_of_not_mem hnd (_next_sub_item_id_fresh parent_id _)
  | remove =>
    rcases csid with _ | x
    · exact hnd
    · simp only [applySubItemChange]
      split
      · exact hnd.sublist ((List.filter_sublist _).map _)
      · exact hnd
  | update =>
    rcases csid with _ | x
    · exact hnd
    · simp only [applySubItemChange]
      split
      · rw [sub_update_map_ids]
        exact hnd
      · exact hnd

theorem foldl_applySubItemChange_nodup (parent_id : Str) :
    ∀ (us : List RefinementSubItemUpdateModel) (subs : List ChecklistSubItem),
      (subs.map (·.sub_item_id)).Nodup →
      (∀ c ∈ us, c.action = RefinementAction.add → strTruthy c.sub_item_id = false) →
      ((us.foldl (applySubItemChange parent_id) subs).map (·.sub_item_id)).Nodup := by
  intro us
  induction us with
  | nil => intro subs h _; exact h
  | cons c rest ih =>
    intro subs h hadd
    rw [List.foldl_cons]
    exact ih _ (applySubItemChange_nodup parent_id subs c h (hadd c (by simp)))
      (fun d hd => hadd d (by simp [hd]))

theorem apply_sub_item_updates_item_id (item : ChecklistItem)
    (us : List RefinementSubItemUpdateModel) :
    (_apply_sub_item_updates item us).item_id = item.item_id := rfl

theorem apply_sub_item_updates_nodup (item : ChecklistItem)
    (us : List RefinementSubItemUpdateModel)
    (h : (item.sub_items.map (·.sub_item_id)).Nodup)
    (hadd : ∀ c ∈ us, c.action = RefinementAction.add → strTruthy c.sub_item_id = false) :
    ((_apply_sub_item_updates item us).sub_items.map (·.sub_item_id)).Nodup :=
  foldl_applySubItemChange_nodup item.item_id us item.sub_items h hadd

theorem buildInitialItems_ids :
    ∀ (bs : List ChecklistBullet) (k : Nat),
      (buildInitialItems k bs).map (·.item_id) =
        (List.range bs.length).map (fun i => itemDash ++ natChars (k + i + 1)) := by
  intro bs
  induction bs with
  | nil => intro k; rfl
  | cons b rest ih =>
    intro k
    simp only [buildInitialItems, List.map_cons, List.length_cons, List.range_succ_eq_map,
      List.map_map, List.cons.injEq]
    refine ⟨by simp, ?_⟩
    rw [ih (k + 1)]
    apply List.map_congr_left
    intro j _
    simp only [Function.comp_apply]
    have : k + 1 + j + 1 = k + (j + 1) + 1 := by omega
    rw [this]

theorem buildInitialItems_sub_shape :
    ∀ (bs : List ChecklistBullet) (k : Nat) (it : ChecklistItem), it ∈ buildInitialItems k bs →
      ∃ pid sb, it.sub_items = _build_sub_items_from_bullets pid 0 sb := by
  intro bs
  induction bs with
  | nil => intro k it h; cases h
  | cons b rest ih =>
    intro k it h
    rcases List.mem_cons.mp h with he | hm
    · exact ⟨itemDash ++ natChars (k + 1), b.sub_items, by rw [he]⟩
    · exact ih (k + 1) it hm

theorem buildInitialItems_unique (bs : List ChecklistBullet) (k : Nat) :
    UniqueIds (buildInitialItems k bs) := by
  constructor
  · rw [buildInitialItems_ids]
    refine List.Nodup.map_on ?_ (List.nodup_range _)
    intro i _ j _ he
    have := natChars_injective (List.append_cancel_left he)
    omega
  · intro it hit
    rcases buildInitialItems_sub_shape bs k it hit with ⟨pid, sb, he⟩
    rw [he]
    exact build_sub_items_nodup pid 0 sb

/-- The restriction under which incorporate-refinements preserves the
uniqueness invariant: no `add` instruction carries an explicit item id,
and no nested `add` sub-item update carries an explicit sub-item id. -/
def NoExplicitAddIds (output : IncorporateRefinementsOutput) : Prop :=
  ∀ u ∈ output.updates,
    (u.action = RefinementAction.add → strTruthy u.item_id = false) ∧
    ∀ c ∈ u.sub_item_updates, c.action = RefinementAction.add → strTruthy c.sub_item_id = false

instance (output : IncorporateRefinementsOutput) : Decidable (NoExplicitAddIds output) := by
  unfold NoExplicitAddIds
  infer_instance

theorem append_fresh_item_unique (items : List ChecklistItem) (ni : ChecklistItem)
    (h : UniqueIds items) (hfresh : ni.item_id ∉ items.map (·.item_id))
    (hsub : (ni.sub_items.map (·.sub_item_id)).Nodup) :
    UniqueIds (items ++ [ni]) := by
  constructor
  · rw [List.map_append, List.map_cons, List.map_nil]
    exact nodup_concat_of_not_mem h.1 hfresh
  · intro it hit
    rcases List.mem_append.mp hit with hm | hm
    · exact h.2 it hm
    · simp only [List.mem_cons, List.not_mem_nil, or_false] at hm
      rw [hm]
      exact hsub

theorem applyRefinementUpdate_unique (items : List ChecklistItem)
    (u : RefinementUpdateModel) (h : UniqueIds items)
    (haddid : u.action = RefinementAction.add → strTruthy u.item_id = false)
    (hsubadd : ∀ c ∈ u.sub_item_updates,
      c.action = RefinementAction.add → strTruthy c.sub_item_id = false) :
    UniqueIds (applyRefinementUpdate items u) := by
  obtain ⟨uid, uact, usum, udet, ucrit, usubs, usubup⟩ := u
  cases uact with
  | add =>
    have hexp : strTruthy uid = false := haddid rfl
    rcases hsum : strTruthy usum with _ | _
    · simpa [applyRefinementUpdate, hsum] using h
    · rcases uid with _ | x
      · simp only [applyRefinementUpdate, hsum, Bool.not_true, Bool.false_eq_true, if_false]
        refine append_fresh_item_unique _ _ h ?_ ?_
        · split <;> exact _next_item_id_fresh _
        · split
          · exact apply_sub_item_updates_nodup _ usubup
              (build_sub_items_nodup _ 0 usubs) (fun c hc => hsubadd c hc)
          · exact build_sub_items_nodup _ 0 usubs
      · have hxe : x.isEmpty = true := by
          unfold strTruthy at hexp
          simpa using hexp
        simp only [applyRefinementUpdate, hsum, Bool.not_true, Bool.false_eq_true, if_false,
          hxe, if_true]
        refine append_fresh_item_unique _ _ h ?_ ?_
        · split <;> exact _next_item_id_fresh _
        · split
          · exact apply_sub_item_updates_nodup _ usubup
              (build_sub_items_nodup _ 0 usubs) (fun c hc => hsubadd c hc)
          · exact build_sub_items_nodup _ 0 usubs
  | remove =>
    rcases uid with _ | x
    · exact h
    · simp only [applyRefinementUpdate]
      split
      · constructor
        · exact h.1.sublist ((List.filter_sublist _).map _)
        · intro it hit
          exact h.2 it (List.mem_of_mem_filter hit)
      · exact h
  | update =>
    rcases uid with _ | x
    · exact h
    · simp only [applyRefinementUpdate]
      split
      · constructor
        · rw [updateLast_map_eq ?hpres]
          case hpres =>
            intro it _
            simp only [_apply_sub_item_updates]
            split <;> rfl
          exact h.1
        · intro it hit
          rcases mem_updateLast hit with hm | ⟨y, hy, he⟩
          · exact h.2 it hm
          · rw [he]
            simp only [_apply_sub_item_updates]
            apply foldl_applySubItemChange_nodup _ usubup _ ?hstart hsubadd
            case hstart =>
              split
              · exact build_sub_items_nodup _ 0 usubs
              · exact h.2 y hy
      · exact h

theorem foldl_applyRefinementUpdate_unique :
    ∀ (us : List RefinementUpdateModel) (items : List ChecklistItem), UniqueIds items →
      (∀ u ∈ us, (u.action = RefinementAction.add → strTruthy u.item_id = false) ∧
        ∀ c ∈ u.sub_item_updates, c.action = RefinementAction.add →
          strTruthy c.sub_item_id = false) →
      UniqueIds (us.foldl applyRefinementUpdate items) := by
  intro us
  induction us with
  | nil => intro items h _; exact h
  | cons u rest ih =>
    intro items h hall
    rw [List.foldl_cons]
    exact ih _ (applyRefinementUpdate_unique items u h (hall u (by simp)).1 (hall u (by simp)).2)
      (fun v hv => hall v (by simp [hv]))

theorem incorporate_refinements_unique (now : Nat) (s : ResearchState)
    (out : IncorporateRefinementsOutput) (h : UniqueIds s.working.checklist_items)
    (hadd : NoExplicitAddIds out) :
    UniqueIds (_handle_incorporate_refinements now s out).working.checklist_items :=
  foldl_applyRefinementUpdate_unique out.updates s.working.checklist_items h hadd

theorem applySignalToItem_preservesIds (sig : ProgressSignalModel) :
    preservesIds (applySignalToItem sig) :=
  fun _ => ⟨rfl, rfl⟩

theorem stepSignalItemId_unique (sig : ProgressSignalModel)
    (acc : List ChecklistItem × List (Str × ChecklistItemStatus)) (iid : Str)
    (h : UniqueIds acc.1) : UniqueIds (stepSignalItemId sig acc iid).1 := by
  rcases hl : lookupLast (fun item => item.item_id = iid) acc.1 with _ | it <;>
    simp only [stepSignalItemId, hl]
  · exact h
  · exact UniqueIds_updateLast (applySignalToItem_preservesIds sig) h

theorem updateLastSubIn_preservesIds (sid : Str) (sig : ProgressSignalModel) :
    preservesIds (fun item =>
      { item with sub_items :=
          updateLast (fun sub => sub.sub_item_id = sid) (applySignalToSub sig) item.sub_items }) := by
  intro it
  refine ⟨rfl, ?_⟩
  apply updateLast_map_eq
  intro sub _
  rfl

theorem stepSignalSubId_unique (sig : ProgressSignalModel)
    (acc : List ChecklistItem × List (Str × ChecklistItemStatus)) (sid : Str)
    (h : UniqueIds acc.1) : UniqueIds (stepSignalSubId sig acc sid).1 := by
  rcases hl : lookupLastSub sid acc.1 with _ | sub <;>
    simp only [stepSignalSubId, hl]
  · exact h
  · exact UniqueIds_updateLast (updateLastSubIn_preservesIds sid sig) h

theorem foldl_stepSignalItemId_unique (sig : ProgressSignalModel) :
    ∀ (ids : List Str) (acc : List ChecklistItem × List (Str × ChecklistItemStatus)),
      UniqueIds acc.1 → UniqueIds (ids.foldl (stepSignalItemId sig) acc).1 := by
  intro ids
  induction ids with
  | nil => intro acc h; exact h
  | cons i rest ih =>
    intro acc h
    rw [List.foldl_cons]
    exact ih _ (stepSignalItemId_unique sig acc i h)

theorem foldl_stepSignalSubId_unique (sig : ProgressSignalModel) :
    ∀ (ids : List Str) (acc : List ChecklistItem × List (Str × ChecklistItemStatus)),
      UniqueIds acc.1 → UniqueIds (ids.foldl (stepSignalSubId sig) acc).1 := by
  intro ids
  induction ids with
  | nil => intro acc h; exact h
  | cons i rest ih =>
    intro acc h
    rw [List.foldl_cons]
    exact ih _ (stepSignalSubId_unique sig acc i h)

theorem processSignal_unique (now : Nat) (utext : Str)
    (acc : List ChecklistItem × List ProgressLogEntry) (sig : ProgressSignalModel)
    (h : UniqueIds acc.1) : UniqueIds (processSignal now utext acc sig).1 := by
  have h1 := foldl_stepSignalItemId_unique sig sig.item_ids (acc.1, []) h
  have h2 := foldl_stepSignalSubId_unique sig sig.sub_item_ids
    ((sig.item_ids.foldl (stepSignalItemId sig) (acc.1, [])).1, []) h1
  unfold processSignal
  dsimp only
  split
  · exact h2
  · split
    · exact h2
    · exact h2

theorem foldl_processSignal_unique (now : Nat) (utext : Str) :
    ∀ (sigs : List ProgressSignalModel) (acc : List ChecklistItem × List ProgressLogEntry),
      UniqueIds acc.1 → UniqueIds (sigs.foldl (processSignal now utext) acc).1 := by
  intro sigs
  induction sigs with
  | nil => intro acc h; exact h
  | cons sig rest ih =>
    intro acc h
    rw [List.foldl_cons]
    exact ih _ (processSignal_unique now utext acc sig h)

theorem interpret_progress_unique (now : Nat) (s : ResearchState)
    (out : InterpretProgressUpdateOutput) (h : UniqueIds s.working.checklist_items) :
    UniqueIds (_handle_interpret_progress_update now s out).working.checklist_items := by
  have hmain := foldl_processSignal_unique now (s.working.latest_user_message.getD [])
    out.signals (s.working.checklist_items, s.working.progress_log) h
  unfold _handle_interpret_progress_update
  dsimp only
  split <;> exact hmain

/-- C1 (amended): starting from a state whose checklist item ids are
pairwise distinct and whose sub-item ids are pairwise distinct within
each parent, every transition and every skill-result handler preserves
both uniqueness properties — for the incorporate-refinements handler,
provided no `add` instruction carries an explicit item_id and no nested
`add` sub-item update carries an explicit sub_item_id (an explicit id
equal to an existing one is appended unchecked and breaks uniqueness). -/
theorem uniqueness_invariant_preserved (now : Nat) (s : ResearchState)
    (h : UniqueIds s.working.checklist_items) :
    (∀ out, NoExplicitAddIds out →
      UniqueIds (_handle_incorporate_refinements now s out).working.checklist_items) ∧
    (∀ out, UniqueIds (_handle_generate_initial_checklist now s out).working.checklist_items) ∧
    (∀ out, UniqueIds (_handle_interpret_progress_update now s out).working.checklist_items) ∧
    (∀ out, UniqueIds (_handle_generate_refinement_questions now s out).working.checklist_items) ∧
    (∀ out, UniqueIds (_handle_completion_summary now s out).working.checklist_items) ∧
    (∀ t, UniqueIds (ingest_user_description now s t).working.checklist_items) ∧
    (∀ t, UniqueIds (record_user_feedback now s t).working.checklist_items) ∧
    (∀ t, UniqueIds (ingest_progress_input now s t).working.checklist_items) ∧
    UniqueIds (mark_checklist_approved now s).working.checklist_items ∧
    (∀ t, UniqueIds (mark_checklist_rejected now s t).working.checklist_items) ∧
    (∀ a f, UniqueIds (record_save_result now s a f).working.checklist_items) ∧
    UniqueIds (activate_tracking_mode now s).working.checklist_items ∧
    UniqueIds (acknowledge_progress_ack now s).working.checklist_items ∧
    UniqueIds (acknowledge_summary_delivery now s).working.checklist_items := by
  refine ⟨fun out hadd => incorporate_refinements_unique now s out h hadd,
    fun out => buildInitialItems_unique out.items 0,
    fun out => interpret_progress_unique now s out h,
    fun _ => h, fun _ => h, ?_, ?_, ?_, h, ?_, fun _ _ => h, h, h, h⟩
  · intro t
    unfold ingest_user_description
    dsimp only
    split <;> exact h
  · intro t
    unfold record_user_feedback
    dsimp only
    split <;> exact h
  · intro t
    unfold ingest_progress_input
    dsimp only
    split <;> exact h
  · intro t
    unfold mark_checklist_rejected
    dsimp only
    split <;> exact h

/-- Concrete one-item state with distinct ids, used for C1. -/
def c1state : ResearchState :=
  { working := { checklist_items := [{ item_id := "item-1".data, summary := ['a'] }] } }

/-- Incorporate-refinements output whose add instructions carry no
explicit ids. -/
def c1okOut : IncorporateRefinementsOutput :=
  { ai_response := []
    updates := [{ action := RefinementAction.add, summary := some ['n']
                  sub_item_updates := [{ action := RefinementAction.add, summary := some ['s'] }] }] }

/-- Witness for C1 on a concrete unique-id state and an id-less add. -/
theorem uniqueness_invariant_preserved_witness :
    UniqueIds c1state.working.checklist_items ∧
    NoExplicitAddIds c1okOut ∧
    UniqueIds (_handle_incorporate_refinements 0 c1state c1okOut).working.checklist_items :=
  ⟨by decide, by decide,
   (uniqueness_invariant_preserved 0 c1state (by decide)).1 c1okOut (by decide)⟩

/-- Incorporate-refinements output whose add instruction carries an
explicit item_id equal to an already-existing id. -/
def c1dupOut : IncorporateRefinementsOutput :=
  { ai_response := []
    updates := [{ item_id := some ("item-1".data), action := RefinementAction.add
                  summary := some ['d'] }] }

/-- Counterexample to C1 as stated: on a state whose single item id is
`item-1` (pairwise distinct), an add instruction carrying the explicit
item_id `item-1` yields a checklist whose item ids are
`item-1, item-1` — no longer pairwise distinct. -/
theorem uniqueness_add_explicit_counterexample :
    UniqueIds c1state.working.checklist_items ∧
    (_handle_incorporate_refinements 0 c1state c1dupOut).working.checklist_items.map (·.item_id)
      = ["item-1".data, "item-1".data] ∧
    ¬ ((_handle_incorporate_refinements 0 c1state c1dupOut).working.checklist_items.map
        (·.item_id)).Nodup :=
  ⟨by decide, by decide, by decide⟩

/-! ### Which progress signals get logged -/

/-- The item ids present in a checklist, in order. -/
def itemIdsOf (items : List ChecklistItem) : List Str := items.map (·.item_id)

/-- All sub-item ids present in a checklist, in the flattened traversal
order of `sub_items_by_id`. -/
def subIdsOf (items : List ChecklistItem) : List Str :=
  (items.map (fun it => it.sub_items.map (·.sub_item_id))).flatten

/-- A signal references the checklist iff some of its item ids or some of
its sub-item ids names an existing item or sub-item. -/
def signalMatches (itemIds subIds : List Str) (sig : ProgressSignalModel) : Bool :=
  sig.item_ids.any (fun i => decide (i ∈ itemIds)) ||
    sig.sub_item_ids.any (fun i => decide (i ∈ subIds))

/-- First-occurrence deduplication relative to already-seen keys —
the key order of a Python dict built by repeated insertion. -/
def dedupKeys (seen : List Str) : List Str → List Str
  | [] => []
  | x :: xs => if x ∈ seen then dedupKeys seen xs else x :: dedupKeys (x :: seen) xs

/-- The referenced item ids a signal's log entry records: the matched
item ids in order, first occurrences only. -/
def matchedRefIds (itemIds : List Str) (sig : ProgressSignalModel) : List Str :=
  dedupKeys [] (sig.item_ids.filter (fun i => decide (i ∈ itemIds)))

theorem dedupKeys_congr :
    ∀ (l : List Str) (seen1 seen2 : List Str), (∀ a, a ∈ seen1 ↔ a ∈ seen2) →
      dedupKeys seen1 l = dedupKeys seen2 l := by
  intro l
  induction l with
  | nil => intro seen1 seen2 _; rfl
  | cons x xs ih =>
    intro seen1 seen2 hiff
    unfold dedupKeys
    by_cases hx : x ∈ seen1
    · rw [if_pos hx, if_pos ((hiff x).mp hx)]
      exact ih seen1 seen2 hiff
    · rw [if_neg hx, if_neg (fun hc => hx ((hiff x).mpr hc))]
      rw [ih (x :: seen1) (x :: seen2) (fun a => by simp [hiff a])]

theorem dedupKeys_eq_nil_iff (seen : List Str) :
    ∀ l : List Str, dedupKeys seen l = [] ↔ ∀ a ∈ l, a ∈ seen := by
  intro l
  induction l with
  | nil => simp [dedupKeys]
  | cons x xs ih =>
    unfold dedupKeys
    by_cases hx : x ∈ seen
    · rw [if_pos hx]
      rw [ih]
      constructor
      · intro h a ha
        rcases List.mem_cons.mp ha with he | hm
        · rw [he]; exact hx
        · exact h a hm
      · intro h a ha
        exact h a (by simp [ha])
    · rw [if_neg hx]
      constructor
      · intro h; cases h
      · intro h
        exact absurd (h x (by simp)) hx

theorem any_iff_filter_ne_nil (l : List Str) (p : Str → Bool) :
    l.any p = true ↔ l.filter p ≠ [] := by
  rw [List.any_eq_true, Ne, List.filter_eq_nil_iff]
  constructor
  · rintro ⟨x, hx, hp⟩ hall
    exact hall x hx hp
  · intro h
    by_contra hq
    push_neg at hq
    exact h (fun a ha hp => hq a ha hp)

theorem lookupLast_item_none_iff (items : List ChecklistItem) (iid : Str) :
    lookupLast (fun item => item.item_id = iid) items = none ↔ iid ∉ itemIdsOf items := by
  rw [lookupLast_eq_none_iff]
  unfold itemIdsOf
  constructor
  · intro h hc
    rcases List.mem_map.mp hc with ⟨it, hmem, hid⟩
    have := h it hmem
    simp [hid] at this
  · intro h it hmem
    simp only [decide_eq_false_iff_not]
    intro he
    exact h (List.mem_map.mpr ⟨it, hmem, he⟩)

theorem lookupLastSub_none_iff (items : List ChecklistItem) (sid : Str) :
    lookupLastSub sid items = none ↔ sid ∉ subIdsOf items := by
  unfold lookupLastSub
  rw [lookupLast_eq_none_iff]
  have hflat : subIdsOf items = ((items.map (·.sub_items)).flatten).map (·.sub_item_id) := by
    unfold subIdsOf
    rw [List.map_flatten, List.map_map]
    rfl
  rw [hflat]
  constructor
  · intro h hc
    rcases List.mem_map.mp hc with ⟨sub, hmem, hid⟩
    have := h sub hmem
    simp [hid] at this
  · intro h sub hmem
    simp only [decide_eq_false_iff_not]
    intro he
    exact h (List.mem_map.mpr ⟨sub, hmem, he⟩)

theorem itemIdsOf_updateLast {p : ChecklistItem → Bool} {f : ChecklistItem → ChecklistItem}
    (hf : ∀ x, p x = true → (f x).item_id = x.item_id) (c : List ChecklistItem) :
    itemIdsOf (updateLast p f c) = itemIdsOf c :=
  updateLast_map_eq hf c

theorem subIdsOf_updateLast {p : ChecklistItem → Bool} {f : ChecklistItem → ChecklistItem}
    (hf : ∀ x, p x = true →
      (f x).sub_items.map (·.sub_item_id) = x.sub_items.map (·.sub_item_id))
    (c : List ChecklistItem) : subIdsOf (updateLast p f c) = subIdsOf c := by
  unfold subIdsOf
  rw [updateLast_map_eq hf]

theorem any_fst_eq_iff_mem (m : List (Str × ChecklistItemStatus)) (k : Str) :
    (m.any fun p => p.1 = k) = true ↔ k ∈ m.map (·.1) := by
  rw [List.any_eq_true]
  constructor
  · rintro ⟨p, hp, he⟩
    exact List.mem_map.mpr ⟨p, hp, of_decide_eq_true he⟩
  · intro hm
    rcases List.mem_map.mp hm with ⟨p, hp, he⟩
    exact ⟨p, hp, by simp [he]⟩

theorem dictInsert_keys_cases (m : List (Str × ChecklistItemStatus)) (k : Str)
    (v : ChecklistItemStatus) :
    (dictInsert m k v).map (·.1) =
      if k ∈ m.map (·.1) then m.map (·.1) else m.map (·.1) ++ [k] := by
  rw [dictInsert_keys]
  by_cases hk : k ∈ m.map (·.1)
  · rw [if_pos ((any_fst_eq_iff_mem m k).mpr hk), if_pos hk]
  · rw [if_neg (fun hc => hk ((any_fst_eq_iff_mem m k).mp hc)), if_neg hk]

theorem dedupKeys_cons (seen : List Str) (x : Str) (xs : List Str) :
    dedupKeys seen (x :: xs) =
      if x ∈ seen then dedupKeys seen xs else x :: dedupKeys (x :: seen) xs := rfl

theorem itemFold_spec (sig : ProgressSignalModel) :
    ∀ (ids : List Str) (c : List ChecklistItem) (m : List (Str × ChecklistItemStatus)),
      itemIdsOf ((ids.foldl (stepSignalItemId sig) (c, m)).1) = itemIdsOf c ∧
      subIdsOf ((ids.foldl (stepSignalItemId sig) (c, m)).1) = subIdsOf c ∧
      ((ids.foldl (stepSignalItemId sig) (c, m)).2).map (·.1) =
        m.map (·.1) ++
          dedupKeys (m.map (·.1)) (ids.filter (fun i => decide (i ∈ itemIdsOf c))) := by
  intro ids
  induction ids with
  | nil => intro c m; exact ⟨rfl, rfl, by simp [dedupKeys]⟩
  | cons i rest ih =>
    intro c m
    rw [List.foldl_cons]
    rcases hl : lookupLast (fun item => item.item_id = i) c with _ | it
    · have hni : i ∉ itemIdsOf c := (lookupLast_item_none_iff c i).mp hl
      have hstep : stepSignalItemId sig (c, m) i = (c, m) := by
        simp only [stepSignalItemId, hl]
      rw [hstep, List.filter_cons_of_neg (by simpa using hni)]
      exact ih c m
    · have hmi : i ∈ itemIdsOf c := by
        by_contra hni
        rw [← lookupLast_item_none_iff c i] at hni
        rw [hl] at hni
        cases hni
      have hstep : stepSignalItemId sig (c, m) i =
          (updateLast (fun it => it.item_id = i) (applySignalToItem sig) c,
           dictInsert m i (signalStatus sig it.status)) := by
        simp only [stepSignalItemId, hl]
      rw [hstep, List.filter_cons_of_pos (by simpa using hmi)]
      set c' := updateLast (fun it => it.item_id = i) (applySignalToItem sig) c with hc'
      set m' := dictInsert m i (signalStatus sig it.status) with hm'
      have hids : itemIdsOf c' = itemIdsOf c := by
        rw [hc']
        apply itemIdsOf_updateLast
        intro x hx
        rfl
      have hsubs : subIdsOf c' = subIdsOf c := by
        rw [hc']
        apply subIdsOf_updateLast
        intro x hx
        rfl
      have hkeys : m'.map (·.1) =
          if i ∈ m.map (·.1) then m.map (·.1) else m.map (·.1) ++ [i] :=
        dictInsert_keys_cases m i _
      obtain ⟨ih1, ih2, ih3⟩ := ih c' m'
      refine ⟨ih1.trans hids, ih2.trans hsubs, ?_⟩
      rw [ih3, hids, hkeys]
      by_cases hmem : i ∈ m.map (·.1)
      · rw [if_pos hmem, dedupKeys_cons, if_pos hmem]
      · rw [if_neg hmem, dedupKeys_cons, if_neg hmem]
        rw [dedupKeys_congr _ (m.map (·.1) ++ [i]) (i :: m.map (·.1)) (fun a => by
          rw [List.mem_append, List.mem_singleton, List.mem_cons]
          tauto)]
        simp

theorem subFold_spec (sig : ProgressSignalModel) :
    ∀ (ids : List Str) (c : List ChecklistItem) (m : List (Str × ChecklistItemStatus)),
      itemIdsOf ((ids.foldl (stepSignalSubId sig) (c, m)).1) = itemIdsOf c ∧
      subIdsOf ((ids.foldl (stepSignalSubId sig) (c, m)).1) = subIdsOf c ∧
      ((ids.foldl (stepSignalSubId sig) (c, m)).2).map (·.1) =
        m.map (·.1) ++
          dedupKeys (m.map (·.1)) (ids.filter (fun i => decide (i ∈ subIdsOf c))) := by
  intro ids
  induction ids with
  | nil => intro c m; exact ⟨rfl, rfl, by simp [dedupKeys]⟩
  | cons i rest ih =>
    intro c m
    rw [List.foldl_cons]
    rcases hl : lookupLastSub i c with _ | sub
    · have hni : i ∉ subIdsOf c := (lookupLastSub_none_iff c i).mp hl
      have hstep : stepSignalSubId sig (c, m) i = (c, m) := by
        simp only [stepSignalSubId, hl]
      rw [hstep, List.filter_cons_of_neg (by simpa using hni)]
      exact ih c m
    · have hmi : i ∈ subIdsOf c := by
        by_contra hni
        rw [← lookupLastSub_none_iff c i] at hni
        rw [hl] at hni
        cases hni
      have hstep : stepSignalSubId sig (c, m) i =
          (updateLastSubIn i (applySignalToSub sig) c,
           dictInsert m i (signalStatus sig sub.status)) := by
        simp only [stepSignalSubId, hl]
      rw [hstep, List.filter_cons_of_pos (by simpa using hmi)]
      set c' := updateLastSubIn i (applySignalToSub sig) c with hc'
      set m' := dictInsert m i (signalStatus sig sub.status) with hm'
      have hids : itemIdsOf c' = itemIdsOf c := by
        rw [hc']
        unfold updateLastSubIn
        apply itemIdsOf_updateLast
        intro x hx
        rfl
      have hsubs : subIdsOf c' = subIdsOf c := by
        rw [hc']
        unfold updateLastSubIn
        apply subIdsOf_updateLast
        intro x hx
        apply updateLast_map_eq
        intro s hs
        rfl
      have hkeys : m'.map (·.1) =
          if i ∈ m.map (·.1) then m.map (·.1) else m.map (·.1) ++ [i] :=
        dictInsert_keys_cases m i _
      obtain ⟨ih1, ih2, ih3⟩ := ih c' m'
      refine ⟨ih1.trans hids, ih2.trans hsubs, ?_⟩
      rw [ih3, hsubs, hkeys]
      by_cases hmem : i ∈ m.map (·.1)
      · rw [if_pos hmem, dedupKeys_cons, if_pos hmem]
      · rw [if_neg hmem, dedupKeys_cons, if_neg hmem]
        rw [dedupKeys_congr _ (m.map (·.1) ++ [i]) (i :: m.map (·.1)) (fun a => by
          rw [List.mem_append, List.mem_singleton, List.mem_cons]
          tauto)]
        simp

theorem dedupKeys_nil_eq_nil_iff (l : List Str) : dedupKeys [] l = [] ↔ l = [] := by
  rw [dedupKeys_eq_nil_iff]
  constructor
  · intro h
    rcases l with _ | ⟨x, xs⟩
    · rfl
    · exact absurd (h x (by simp)) (by simp)
  · intro h
    subst h
    simp

theorem processSignal_fst (now : Nat) (utext : Str) (c : List ChecklistItem)
    (plog : List ProgressLogEntry) (sig : ProgressSignalModel) :
    (processSignal now utext (c, plog) sig).1 =
      (sig.sub_item_ids.foldl (stepSignalSubId sig)
        ((sig.item_ids.foldl (stepSignalItemId sig) (c, [])).1, [])).1 := by
  unfold processSignal
  dsimp only
  split
  · rfl
  · split <;> rfl

theorem processSignal_spec (now : Nat) (utext : Str) (c : List ChecklistItem)
    (plog : List ProgressLogEntry) (sig : ProgressSignalModel) :
    itemIdsOf (processSignal now utext (c, plog) sig).1 = itemIdsOf c ∧
    subIdsOf (processSignal now utext (c, plog) sig).1 = subIdsOf c ∧
    ((processSignal now utext (c, plog) sig).2).map (·.referenced_item_ids) =
      plog.map (·.referenced_item_ids) ++
        (if signalMatches (itemIdsOf c) (subIdsOf c) sig = true
         then [matchedRefIds (itemIdsOf c) sig] else []) := by
  obtain ⟨hA1, hA2, hA3⟩ := itemFold_spec sig sig.item_ids c []
  obtain ⟨hB1, hB2, hB3⟩ := subFold_spec sig sig.sub_item_ids
    ((sig.item_ids.foldl (stepSignalItemId sig) (c, [])).1) []
  simp only [List.map_nil, List.nil_append] at hA3 hB3
  rw [hA2] at hB3
  have htIff : (sig.item_ids.foldl (stepSignalItemId sig) (c, [])).2 = [] ↔
      sig.item_ids.any (fun i => decide (i ∈ itemIdsOf c)) = false := by
    rw [← List.map_eq_nil_iff (f := fun x => x.1)]
    rw [hA3, dedupKeys_nil_eq_nil_iff]
    rw [Bool.eq_false_iff, Ne, any_iff_filter_ne_nil]
    tauto
  have hsIff : (sig.sub_item_ids.foldl (stepSignalSubId sig)
        ((sig.item_ids.foldl (stepSignalItemId sig) (c, [])).1, [])).2 = [] ↔
      sig.sub_item_ids.any (fun i => decide (i ∈ subIdsOf c)) = false := by
    rw [← List.map_eq_nil_iff (f := fun x => x.1)]
    rw [hB3, dedupKeys_nil_eq_nil_iff]
    rw [Bool.eq_false_iff, Ne, any_iff_filter_ne_nil]
    tauto
  refine ⟨?_, ?_, ?_⟩
  · rw [processSignal_fst]
    exact hB1.trans hA1
  · rw [processSignal_fst]
    exact hB2.trans hA2
  · unfold processSignal
    dsimp only
    split
    · rename_i hcond
      have htne : (sig.item_ids.foldl (stepSignalItemId sig) (c, [])).2 ≠ [] := by
        simpa [List.isEmpty_iff] using hcond
      have hanyI : sig.item_ids.any (fun i => decide (i ∈ itemIdsOf c)) = true := by
        rcases hb : sig.item_ids.any (fun i => decide (i ∈ itemIdsOf c)) with _ | _
        · exact absurd (htIff.mpr hb) htne
        · rfl
      rw [List.map_append, if_pos (by simp [signalMatches, hanyI])]
      congr 1
      simp only [List.map_cons, List.map_nil, List.cons.injEq, and_true]
      rw [hA3]
      rfl
    · rename_i hcond1
      have hteq : (sig.item_ids.foldl (stepSignalItemId sig) (c, [])).2 = [] := by
        simpa [List.isEmpty_iff] using hcond1
      have hanyI : sig.item_ids.any (fun i => decide (i ∈ itemIdsOf c)) = false :=
        htIff.mp hteq
      have hrefnil : matchedRefIds (itemIdsOf c) sig = [] := by
        unfold matchedRefIds
        rw [dedupKeys_nil_eq_nil_iff]
        rw [Bool.eq_false_iff, Ne, any_iff_filter_ne_nil] at hanyI
        tauto
      split
      · rename_i hcond2
        have hsne : (sig.sub_item_ids.foldl (stepSignalSubId sig)
            ((sig.item_ids.foldl (stepSignalItemId sig) (c, [])).1, [])).2 ≠ [] := by
          simpa [List.isEmpty_iff] using hcond2
        have hanyS : sig.sub_item_ids.any (fun i => decide (i ∈ subIdsOf c)) = true := by
          rcases hb : sig.sub_item_ids.any (fun i => decide (i ∈ subIdsOf c)) with _ | _
          · exact absurd (hsIff.mpr hb) hsne
          · rfl
        rw [List.map_append, if_pos (by simp [signalMatches, hanyS]), hrefnil]
        rfl
      · rename_i hcond2
        have hseq : (sig.sub_item_ids.foldl (stepSignalSubId sig)
            ((sig.item_ids.foldl (stepSignalItemId sig) (c, [])).1, [])).2 = [] := by
          simpa [List.isEmpty_iff] using hcond2
        have hanyS : sig.sub_item_ids.any (fun i => decide (i ∈ subIdsOf c)) = false :=
          hsIff.mp hseq
        rw [if_neg (by simp [signalMatches, hanyI, hanyS]), List.append_nil]

theorem foldl_processSignal_spec (now : Nat) (utext : Str) :
    ∀ (sigs : List ProgressSignalModel) (c : List ChecklistItem) (plog : List ProgressLogEntry),
      itemIdsOf ((sigs.foldl (processSignal now utext) (c, plog)).1) = itemIdsOf c ∧
      subIdsOf ((sigs.foldl (processSignal now utext) (c, plog)).1) = subIdsOf c ∧
      ((sigs.foldl (processSignal now utext) (c, plog)).2).map (·.referenced_item_ids) =
        plog.map (·.referenced_item_ids) ++
          (sigs.filter (signalMatches (itemIdsOf c) (subIdsOf c))).map
            (matchedRefIds (itemIdsOf c)) := by
  intro sigs
  induction sigs with
  | nil => intro c plog; exact ⟨rfl, rfl, by simp⟩
  | cons sig rest ih =>
    intro c plog
    rw [List.foldl_cons]
    obtain ⟨hp1, hp2, hp3⟩ := processSignal_spec now utext c plog sig
    obtain ⟨ih1, ih2, ih3⟩ := ih (processSignal now utext (c, plog) sig).1
      (processSignal now utext (c, plog) sig).2
    rw [Prod.mk.eta] at ih1 ih2 ih3
    refine ⟨ih1.trans hp1, ih2.trans hp2, ?_⟩
    rw [ih3, hp1, hp2, hp3, List.filter_cons]
    by_cases hm : signalMatches (itemIdsOf c) (subIdsOf c) sig = true
    · rw [if_pos hm, if_pos hm, List.map_cons, List.append_assoc]
      rfl
    · rw [if_neg hm, if_neg hm, List.append_nil]

/-- C3 (amended): the progress-interpreted handler appends exactly one
`ProgressLogEntry` per signal that references at least one existing item
id or existing sub-item id (whether or not the referenced status actually
changes), in signal order; a signal referencing both items and sub-items
logs a single entry under the item branch, whose `referenced_item_ids`
are the matched item ids (first occurrences, in order); a signal matching
only sub-items logs one entry with empty `referenced_item_ids`; a signal
matching nothing logs no entry. -/
theorem interpret_progress_log_spec (now : Nat) (s : ResearchState)
    (out : InterpretProgressUpdateOutput) :
    ((_handle_interpret_progress_update now s out).working.progress_log).map
        (·.referenced_item_ids) =
      s.working.progress_log.map (·.referenced_item_ids) ++
        (out.signals.filter
          (signalMatches (itemIdsOf s.working.checklist_items)
            (subIdsOf s.working.checklist_items))).map
          (matchedRefIds (itemIdsOf s.working.checklist_items)) := by
  have h := (foldl_processSignal_spec now (s.working.latest_user_message.getD [])
    out.signals s.working.checklist_items s.working.progress_log).2.2
  have hlog : (_handle_interpret_progress_update now s out).working.progress_log =
      (out.signals.foldl (processSignal now (s.working.latest_user_message.getD []))
        (s.working.checklist_items, s.working.progress_log)).2 := by
    unfold _handle_interpret_progress_update
    dsimp only
    split <;> rfl
  rw [hlog, h]

/-- Concrete state and output for the C3 counterexample: the signal
references the existing `item-1` but carries neither a new status nor a
note, so it produces no status transition anywhere. -/
def c3state : ResearchState :=
  { working := { checklist_items := [{ item_id := "item-1".data, summary := ['a'] }] } }

/-- An interpret-progress output whose only signal has a matching item id
but no status change. -/
def c3out : InterpretProgressUpdateOutput :=
  { ai_response := ['k'], signals := [{ item_ids := ["item-1".data] }] }

/-- Counterexample to C3 as stated: the handler leaves every item and
sub-item (in fact the whole checklist) unchanged — the signal produced no
status transition — yet it still appends one ProgressLogEntry, because
the entry is recorded for every signal whose ids merely match. -/
theorem progress_log_no_transition_counterexample :
    (_handle_interpret_progress_update 0 c3state c3out).working.checklist_items
      = c3state.working.checklist_items ∧
    (_handle_interpret_progress_update 0 c3state c3out).working.progress_log.length
      = c3state.working.progress_log.length + 1 :=
  ⟨by decide, by decide⟩
